import Mathlib

/-!
Verification of the ChainBreak-AI analysis request pipeline
(`src/app/api/analyze/route.ts`).

The pipeline is shallowly embedded: JavaScript values resolved from the
model backend are modelled by the inductive type `Json`; the platform
functions `JSON.stringify(v, null, 2)` and `JSON.parse` are modelled by an
executable pretty-printer and recursive-descent parser over `List Char`
(JSON numbers are modelled as integers: fraction/exponent lexemes are
outside the model, which no theorem below depends on).  The route handler's
stages (`totalInputLength`, `buildUserPrompt`, `extractText`,
`sanitizeOutput`, `callGemini`, `parseGeminiJson`, `POST`) are translated
function by function; the network is an oracle giving the outcome of each
`fetch` in call order.
-/

/-- JSON values as produced by `JSON.parse` (numbers restricted to
integers; JavaScript objects are key-ordered association lists). -/
inductive Json where
  | null
  | bool (b : Bool)
  | num (n : Int)
  | str (s : String)
  | arr (elems : List Json)
  | obj (fields : List (String × Json))

mutual

def beqJ : Json → Json → Bool
  | .null, .null => true
  | .bool a, .bool b => a == b
  | .num a, .num b => a == b
  | .str a, .str b => a == b
  | .arr a, .arr b => beqL a b
  | .obj a, .obj b => beqF a b
  | _, _ => false

def beqL : List Json → List Json → Bool
  | [], [] => true
  | a :: as, b :: bs => beqJ a b && beqL as bs
  | _, _ => false

def beqF : List (String × Json) → List (String × Json) → Bool
  | [], [] => true
  | (k, v) :: as, (k2, v2) :: bs => k == k2 && beqJ v v2 && beqF as bs
  | _, _ => false

end

mutual

theorem beqJ_refl : ∀ a : Json, beqJ a a = true
  | .null => rfl
  | .bool a => by simp [beqJ]
  | .num a => by simp [beqJ]
  | .str a => by simp [beqJ]
  | .arr xs => by simp [beqJ, beqL_refl xs]
  | .obj fs => by simp [beqJ, beqF_refl fs]

theorem beqL_refl : ∀ xs : List Json, beqL xs xs = true
  | [] => rfl
  | x :: xs => by simp [beqL, beqJ_refl x, beqL_refl xs]

theorem beqF_refl : ∀ fs : List (String × Json), beqF fs fs = true
  | [] => rfl
  | (k, v) :: fs => by simp [beqF, beqJ_refl v, beqF_refl fs]

end

mutual

theorem beqJ_eq : ∀ a b : Json, beqJ a b = true → a = b
  | .null, .null, _ => rfl
  | .bool a, .bool b, h => by simp [beqJ] at h; simp [h]
  | .num a, .num b, h => by simp [beqJ] at h; simp [h]
  | .str a, .str b, h => by simp [beqJ] at h; simp [h]
  | .arr xs, .arr ys, h => by simp [beqJ] at h; simp [beqL_eq xs ys h]
  | .obj fs, .obj gs, h => by simp [beqJ] at h; simp [beqF_eq fs gs h]
  | .null, .bool _, h => by simp [beqJ] at h
  | .null, .num _, h => by simp [beqJ] at h
  | .null, .str _, h => by simp [beqJ] at h
  | .null, .arr _, h => by simp [beqJ] at h
  | .null, .obj _, h => by simp [beqJ] at h
  | .bool _, .null, h => by simp [beqJ] at h
  | .bool _, .num _, h => by simp [beqJ] at h
  | .bool _, .str _, h => by simp [beqJ] at h
  | .bool _, .arr _, h => by simp [beqJ] at h
  | .bool _, .obj _, h => by simp [beqJ] at h
  | .num _, .null, h => by simp [beqJ] at h
  | .num _, .bool _, h => by simp [beqJ] at h
  | .num _, .str _, h => by simp [beqJ] at h
  | .num _, .arr _, h => by simp [beqJ] at h
  | .num _, .obj _, h => by simp [beqJ] at h
  | .str _, .null, h => by simp [beqJ] at h
  | .str _, .bool _, h => by simp [beqJ] at h
  | .str _, .num _, h => by simp [beqJ] at h
  | .str _, .arr _, h => by simp [beqJ] at h
  | .str _, .obj _, h => by simp [beqJ] at h
  | .arr _, .null, h => by simp [beqJ] at h
  | .arr _, .bool _, h => by simp [beqJ] at h
  | .arr _, .num _, h => by simp [beqJ] at h
  | .arr _, .str _, h => by simp [beqJ] at h
  | .arr _, .obj _, h => by simp [beqJ] at h
  | .obj _, .null, h => by simp [beqJ] at h
  | .obj _, .bool _, h => by simp [beqJ] at h
  | .obj _, .num _, h => by simp [beqJ] at h
  | .obj _, .str _, h => by simp [beqJ] at h
  | .obj _, .arr _, h => by simp [beqJ] at h

theorem beqL_eq : ∀ xs ys : List Json, beqL xs ys = true → xs = ys
  | [], [], _ => rfl
  | x :: xs, y :: ys, h => by
      simp [beqL] at h
      simp [beqJ_eq x y h.1, beqL_eq xs ys h.2]
  | [], _ :: _, h => by simp [beqL] at h
  | _ :: _, [], h => by simp [beqL] at h

theorem beqF_eq : ∀ fs gs : List (String × Json), beqF fs gs = true → fs = gs
  | [], [], _ => rfl
  | (k, v) :: fs, (k2, v2) :: gs, h => by
      simp [beqF] at h
      simp [h.1.1, beqJ_eq v v2 h.1.2, beqF_eq fs gs h.2]
  | [], _ :: _, h => by simp [beqF] at h
  | _ :: _, [], h => by simp [beqF] at h

end

instance : DecidableEq Json := fun a b =>
  if h : beqJ a b = true then isTrue (beqJ_eq a b h)
  else isFalse (fun he => h (he ▸ beqJ_refl a))

/-! ## The serializer: `JSON.stringify(v, null, 2)` -/

/-- Decimal digit character. -/
def digitChar : Nat → Char
  | 0 => '0'
  | 1 => '1'
  | 2 => '2'
  | 3 => '3'
  | 4 => '4'
  | 5 => '5'
  | 6 => '6'
  | 7 => '7'
  | 8 => '8'
  | _ => '9'

/-- Lowercase hexadecimal digit character, as emitted by the JavaScript
`\u00XX` string escapes. -/
def hexDigChar : Nat → Char
  | 0 => '0'
  | 1 => '1'
  | 2 => '2'
  | 3 => '3'
  | 4 => '4'
  | 5 => '5'
  | 6 => '6'
  | 7 => '7'
  | 8 => '8'
  | 9 => '9'
  | 10 => 'a'
  | 11 => 'b'
  | 12 => 'c'
  | 13 => 'd'
  | 14 => 'e'
  | _ => 'f'

/-- Decimal digits with an explicit recursion budget (any budget above the
number suffices; the budget keeps the definition kernel-reducible). -/
def natCharsF (fuel : Nat) (n : Nat) : List Char :=
  match fuel with
  | 0 => []
  | f + 1 =>
    if n < 10 then [ digitChar n ]
    else natCharsF f (n / 10) ++ [ digitChar (n % 10) ]

/-- Decimal digits of a natural number, most significant first. -/
def natChars (n : Nat) : List Char := natCharsF (n + 1) n

/-- Decimal rendering of an integer, as JavaScript renders an integral
number value. -/
def intChars : Int → List Char
  | Int.ofNat n => natChars n
  | Int.negSucc n => '-' :: natChars (n + 1)

/-- `QuoteJSONString` escaping of one character. -/
def escChar (c : Char) : List Char :=
  if c = '"' then [ '\\', '"' ]
  else if c = '\\' then [ '\\', '\\' ]
  else if c = Char.ofNat 8 then [ '\\', 'b' ]
  else if c = Char.ofNat 12 then [ '\\', 'f' ]
  else if c = '\n' then [ '\\', 'n' ]
  else if c = '\r' then [ '\\', 'r' ]
  else if c = '\t' then [ '\\', 't' ]
  else if c.toNat < 32 then
    [ '\\', 'u', '0', '0', hexDigChar (c.toNat / 16), hexDigChar (c.toNat % 16) ]
  else [ c ]

/-- Escaped body of a JSON string literal. -/
def escStr : List Char → List Char
  | [] => []
  | c :: r => escChar c ++ escStr r

/-- The two-space gap of `JSON.stringify(_, null, 2)`. -/
def sp2 : List Char := [ ' ', ' ' ]

mutual

/-- Characters of `JSON.stringify(v, null, 2)` at indentation `ind`. -/
def renderVal (v : Json) (ind : List Char) : List Char :=
  match v with
  | .null => [ 'n', 'u', 'l', 'l' ]
  | .num i => intChars i
  | .bool false => [ 'f', 'a', 'l', 's', 'e' ]
  | .bool true => [ 't', 'r', 'u', 'e' ]
  | .str s => '"' :: (escStr s.data ++ [ '"' ])
  | .arr [] => [ '[', ']' ]
  | .arr (x :: xs) =>
      '[' :: '\n' :: ((ind ++ sp2) ++ (renderVal x (ind ++ sp2) ++
        (renderMore xs (ind ++ sp2) ++ ('\n' :: (ind ++ [ ']' ])))))
  | .obj [] => [ '{', '}' ]
  | .obj ((k, w) :: fs) =>
      '{' :: '\n' :: ((ind ++ sp2) ++
        ('"' :: (escStr k.data ++ ('"' :: ':' :: ' ' :: renderVal w (ind ++ sp2))) ++
        (renderFMore fs (ind ++ sp2) ++ ('\n' :: (ind ++ [ '}' ])))))

/-- Second and later array items, each preceded by `",\n"` and the item
indentation. -/
def renderMore (xs : List Json) (ind : List Char) : List Char :=
  match xs with
  | [] => []
  | x :: rest => ',' :: '\n' :: (ind ++ (renderVal x ind ++ renderMore rest ind))

/-- Second and later object members. -/
def renderFMore (fs : List (String × Json)) (ind : List Char) : List Char :=
  match fs with
  | [] => []
  | (k, w) :: rest =>
      ',' :: '\n' :: (ind ++
        ('"' :: (escStr k.data ++ ('"' :: ':' :: ' ' :: renderVal w ind)) ++
        renderFMore rest ind))

end

/-- One `"key": value` member (how `renderVal` and `renderFMore` lay out an
object member). -/
def renderField (k : String) (v : Json) (ind : List Char) : List Char :=
  '"' :: (escStr k.data ++ ('"' :: ':' :: ' ' :: renderVal v ind))

/-- `JSON.stringify(v, null, 2)`. -/
def stringify (v : Json) : String := String.mk (renderVal v [])

/-! ## The parser: `JSON.parse` -/

/-- JSON insignificant whitespace (space, tab, line feed, carriage return). -/
def isJWs (c : Char) : Bool :=
  c = ' ' || c = '\t' || c = '\n' || c = '\r'

/-- Skip insignificant whitespace. -/
def skipWs : List Char → List Char
  | [] => []
  | c :: r => if isJWs c then skipWs r else c :: r

/-- Value of one hexadecimal digit. -/
def hexVal (c : Char) : Option Nat :=
  if '0' ≤ c ∧ c ≤ '9' then some (c.toNat - 48)
  else if 'a' ≤ c ∧ c ≤ 'f' then some (c.toNat - 87)
  else if 'A' ≤ c ∧ c ≤ 'F' then some (c.toNat - 55)
  else none

/-- Parse the body of a string literal after the opening quote, returning
the decoded characters and the input after the closing quote.  Raw control
characters and unknown escapes are syntax errors, exactly as in
`JSON.parse`. -/
def parseStrBody (cs : List Char) : Option (List Char × List Char) :=
  match cs with
  | [] => none
  | c :: r =>
    if c = '"' then some ([], r)
    else if c = '\\' then
      match r with
      | [] => none
      | e :: r2 =>
        if e = '"' then (parseStrBody r2).map (fun p => ('"' :: p.1, p.2))
        else if e = '\\' then (parseStrBody r2).map (fun p => ('\\' :: p.1, p.2))
        else if e = '/' then (parseStrBody r2).map (fun p => ('/' :: p.1, p.2))
        else if e = 'b' then (parseStrBody r2).map (fun p => (Char.ofNat 8 :: p.1, p.2))
        else if e = 'f' then (parseStrBody r2).map (fun p => (Char.ofNat 12 :: p.1, p.2))
        else if e = 'n' then (parseStrBody r2).map (fun p => ('\n' :: p.1, p.2))
        else if e = 'r' then (parseStrBody r2).map (fun p => ('\r' :: p.1, p.2))
        else if e = 't' then (parseStrBody r2).map (fun p => ('\t' :: p.1, p.2))
        else if e = 'u' then
          match r2 with
          | h1 :: h2 :: h3 :: h4 :: r3 =>
            match hexVal h1, hexVal h2, hexVal h3, hexVal h4 with
            | some a, some b, some c2, some d =>
              (parseStrBody r3).map
                (fun p => (Char.ofNat (((a * 16 + b) * 16 + c2) * 16 + d) :: p.1, p.2))
            | _, _, _, _ => none
          | _ => none
        else none
    else if c.toNat < 32 then none
    else (parseStrBody r).map (fun p => (c :: p.1, p.2))

/-- Is `c` a decimal digit? -/
def isDigitC (c : Char) : Bool := '0' ≤ c && c ≤ '9'

/-- Accumulate decimal digits. -/
def parseDigs (cs : List Char) (acc : Nat) : Nat × List Char :=
  match cs with
  | [] => (acc, [])
  | c :: r => if isDigitC c then parseDigs r (acc * 10 + (c.toNat - 48)) else (acc, cs)

/-- Parse a natural-number literal (JSON integer syntax: no leading
zeros). -/
def parseNatLit (cs : List Char) : Option (Nat × List Char) :=
  match cs with
  | [] => none
  | c :: r =>
    if isDigitC c then
      if c = '0' then
        match r with
        | [] => some (0, [])
        | d :: _ => if isDigitC d then none else some (0, r)
      else some (parseDigs r (c.toNat - 48))
    else none

/-- Reject a fraction or exponent continuation: such number lexemes are
outside the integer model. -/
def intNumRest (i : Int) (rest : List Char) : Option (Int × List Char) :=
  match rest with
  | [] => some (i, [])
  | c :: _ => if c = '.' || c = 'e' || c = 'E' then none else some (i, rest)

/-- Parse an integer literal. -/
def parseIntLit (cs : List Char) : Option (Int × List Char) :=
  match cs with
  | [] => none
  | c :: r =>
    if c = '-' then (parseNatLit r).bind (fun p => intNumRest (-(p.1 : Int)) p.2)
    else (parseNatLit (c :: r)).bind (fun p => intNumRest (p.1 : Int) p.2)

/-- Does a value lexeme start at `c`? -/
def numStart (c : Char) : Bool := c = '-' || isDigitC c

/-- `JSON.parse` collapses duplicate keys: first occurrence keeps its
position, later occurrences overwrite the value. -/
def insertKey (fs : List (String × Json)) (k : String) (v : Json) : List (String × Json) :=
  match fs with
  | [] => [ (k, v) ]
  | (k0, v0) :: r => if k0 = k then (k0, v) :: r else (k0, v0) :: insertKey r k v

/-- Assemble an object from parsed members in textual order. -/
def objOf (ps : List (String × Json)) : List (String × Json) :=
  ps.foldl (fun acc p => insertKey acc p.1 p.2) []

/-- Marker for strings accepted after expecting the given literal tail. -/
def expectTail (lit : List Char) (cs : List Char) : Option (List Char) :=
  match lit, cs with
  | [], _ => some cs
  | l :: ls, c :: r => if c = l then expectTail ls r else none
  | _ :: _, [] => none

mutual

/-- Parse one JSON value starting at the first character of its lexeme. -/
def parseVal (f : Nat) (cs : List Char) : Option (Json × List Char) :=
  match f with
  | 0 => none
  | f + 1 =>
    match cs with
    | [] => none
    | c :: r =>
      if c = 'n' then (expectTail [ 'u', 'l', 'l' ] r).map (fun r2 => (Json.null, r2))
      else if c = 't' then (expectTail [ 'r', 'u', 'e' ] r).map (fun r2 => (Json.bool true, r2))
      else if c = 'f' then
        (expectTail [ 'a', 'l', 's', 'e' ] r).map (fun r2 => (Json.bool false, r2))
      else if c = '"' then (parseStrBody r).map (fun p => (Json.str (String.mk p.1), p.2))
      else if c = '[' then
        match skipWs r with
        | ']' :: r2 => some (Json.arr [], r2)
        | r1 => (parseItems f r1).map (fun p => (Json.arr p.1, p.2))
      else if c = '{' then
        match skipWs r with
        | '}' :: r2 => some (Json.obj [], r2)
        | r1 => (parseMembers f r1).map (fun p => (Json.obj (objOf p.1), p.2))
      else if numStart c then (parseIntLit (c :: r)).map (fun p => (Json.num p.1, p.2))
      else none

/-- Parse the items of a non-empty array, positioned at the first item. -/
def parseItems (f : Nat) (cs : List Char) : Option (List Json × List Char) :=
  match f with
  | 0 => none
  | f + 1 =>
    match parseVal f cs with
    | none => none
    | some (v, r) =>
      match skipWs r with
      | ',' :: r2 => (parseItems f (skipWs r2)).map (fun p => (v :: p.1, p.2))
      | ']' :: r2 => some ([ v ], r2)
      | _ => none

/-- Parse the members of a non-empty object, positioned at the first key. -/
def parseMembers (f : Nat) (cs : List Char) : Option (List (String × Json) × List Char) :=
  match f with
  | 0 => none
  | f + 1 =>
    match cs with
    | '"' :: r =>
      match parseStrBody r with
      | none => none
      | some (k, r1) =>
        match skipWs r1 with
        | ':' :: r2 =>
          match parseVal f (skipWs r2) with
          | none => none
          | some (v, r3) =>
            match skipWs r3 with
            | ',' :: r4 => (parseMembers f (skipWs r4)).map (fun p => ((String.mk k, v) :: p.1, p.2))
            | '}' :: r4 => some ([ (String.mk k, v) ], r4)
            | _ => none
        | _ => none
    | _ => none

end

/-- `JSON.parse`: parse a complete text, requiring only whitespace after
the value. -/
def jsonParse (s : String) : Option Json :=
  let cs := skipWs s.data
  match parseVal (cs.length + 1) cs with
  | some (v, rest) => if skipWs rest = [] then some v else none
  | none => none

/-! ## Constants and keyword redaction (`MAX_TOTAL_CHARS`, `EXPLOIT_KEYWORDS`,
`sanitizeOutput`) -/

/-- `MAX_TOTAL_CHARS` from the route. -/
def MAX_TOTAL_CHARS : Nat := 25000

/-- `EXPLOIT_KEYWORDS` from the route, in source order. -/
def EXPLOIT_KEYWORDS : List String :=
  [ "payload", "reverse shell", "metasploit", "sqlmap", "exploit",
    "shellcode", "cmd.exe", "powershell -enc", "dropper" ]

/-- The replacement text of `sanitizeOutput`. -/
def MARKER : List Char := [ '[', 'r', 'e', 'd', 'a', 'c', 't', 'e', 'd', ']' ]

/-- One pattern character of `new RegExp(keyword, "gi")`: the `.` in
`cmd.exe` matches any character except a line terminator; every other
keyword character matches case-insensitively (the keywords are ASCII). -/
def patCharM (p c : Char) : Bool :=
  if p = '.' then
    !(c = '\n' || c = '\r' || c = Char.ofNat 8232 || c = Char.ofNat 8233)
  else p.toLower = c.toLower

/-- Does the keyword pattern match a prefix of `cs`? -/
def matchAt : List Char → List Char → Bool
  | [], _ => true
  | _ :: _, [] => false
  | p :: ps, c :: cs => patCharM p c && matchAt ps cs

/-- `regex.test`: does the pattern match anywhere in `cs`? -/
def testPat (pat : List Char) (cs : List Char) : Bool :=
  matchAt pat cs ||
    (match cs with
     | [] => false
     | _ :: t => testPat pat t)

/-- Left-to-right global replacement with an explicit recursion budget:
each step consumes at least one character, so any budget at or above the
input length is exact.  (The budget keeps the definition
kernel-reducible.) -/
def replAllF (fuel : Nat) (pat : List Char) (cs : List Char) : List Char :=
  match fuel, cs with
  | _, [] => []
  | 0, _ => []
  | f + 1, c :: r =>
    if matchAt pat (c :: r) then MARKER ++ replAllF f pat ((c :: r).drop (max pat.length 1))
    else c :: replAllF f pat r

/-- `String.prototype.replace` with a global regex: scan left to right,
replace each leftmost match with `MARKER` and continue after it. -/
def replAll (pat : List Char) (cs : List Char) : List Char :=
  replAllF cs.length pat cs

/-- One iteration of the `for` loop in `sanitizeOutput`. -/
def sanitizeStep (acc : String × Bool) (kw : String) : String × Bool :=
  if testPat kw.data acc.1.data then (String.mk (replAll kw.data acc.1.data), true)
  else acc

/-- `sanitizeOutput`: fold the keyword list over the serialized text,
recording whether any replacement occurred. -/
def sanitizeOutput (s : String) : String × Bool :=
  EXPLOIT_KEYWORDS.foldl sanitizeStep (s, false)

/-! ## The Model Client (`GeminiResponse`, `extractText`, `callGemini`) -/

/-- One fragment of generated content. -/
structure GeminiPart where
  text : Option String
deriving DecidableEq

/-- Content of one candidate. -/
structure GeminiContent where
  parts : Option (List GeminiPart)
deriving DecidableEq

/-- One returned candidate. -/
structure GeminiCandidate where
  content : Option GeminiContent
deriving DecidableEq

/-- The backend's response body, as the route types it. -/
structure GeminiResponse where
  candidates : Option (List GeminiCandidate)
deriving DecidableEq

/-- The whitespace removed by `String.prototype.trim` (ASCII whitespace,
no-break space and the byte-order mark; further Unicode space characters
are outside the model). -/
def isTrimWs (c : Char) : Bool :=
  c = ' ' || c = '\t' || c = '\n' || c = '\r' ||
  c = Char.ofNat 11 || c = Char.ofNat 12 || c = Char.ofNat 160 || c = Char.ofNat 65279

/-- `String.prototype.trim`. -/
def jsTrim (s : String) : String :=
  String.mk (((s.data.dropWhile isTrimWs).reverse.dropWhile isTrimWs).reverse)

/-- `extractText`: the optional-chain
`response.candidates?.[0]?.content?.parts?.map((p) => p.text ?? "").join("")`
followed by `text?.trim() ?? ""`. -/
def extractText (r : GeminiResponse) : String :=
  let t :=
    ((((r.candidates.bind (fun cs => cs.head?)).bind
      (fun c => c.content)).bind
      (fun ct => ct.parts)).map
      (fun ps => String.join (ps.map (fun p => p.text.getD ""))))
  match t with
  | some s => jsTrim s
  | none => ""

/-- Outcome of one `fetch` to the model backend: the promise rejects
(connectivity failure), resolves with a non-ok status, or resolves with a
parsed `GeminiResponse` body. -/
inductive FetchOutcome where
  | reject (msg : String)
  | httpError (status : Nat) (body : String)
  | success (r : GeminiResponse)

/-- `callGemini`: a rejected fetch propagates as the rejection's error; a
non-ok response throws `Gemini API error: <status> <body>`; an ok response
yields its parsed body. -/
def callGemini : FetchOutcome → Except String GeminiResponse
  | .reject m => Except.error m
  | .httpError s b => Except.error ("Gemini API error: " ++ toString s ++ " " ++ b)
  | .success r => Except.ok r

/-! ## The JSON Resolver (`parseGeminiJson`) -/

/-- `parseGeminiJson` over a network oracle giving each `fetch` outcome in
call order, returning the handler's result together with the number of
Model Client invocations made.  The message payloads (fixed prompt
constants plus the user prompt, and the repair directive plus the invalid
text) do not influence the oracle and are omitted from the call. -/
def parseGeminiJsonM (oracle : Nat → FetchOutcome) : Except String (Json × String) × Nat :=
  match callGemini (oracle 0) with
  | Except.error e => (Except.error e, 1)
  | Except.ok r0 =>
    let initialText := extractText r0
    match jsonParse initialText with
    | some v => (Except.ok (v, initialText), 1)
    | none =>
      match callGemini (oracle 1) with
      | Except.error e => (Except.error e, 2)
      | Except.ok r1 =>
        let repairText := extractText r1
        match jsonParse repairText with
        | some v => (Except.ok (v, repairText), 2)
        | none => (Except.error (if repairText = "" then initialText else repairText), 2)

/-! ## The request body (`AnalysisInput`) and the Input Validator -/

/-- The `snippets` object. -/
structure Snippets where
  config : Option String
  logs : Option String
  code : Option String
deriving DecidableEq

/-- The request body.  `none` models a missing field (or `null` for
`what_if`, which the route treats identically through `??`). -/
structure AnalysisInput where
  project_name : Option String
  system_text : Option String
  diagram_summary : Option String
  snippets : Option Snippets
  what_if : Option String
deriving DecidableEq

/-- The check `!body.system_text || body.system_text.trim().length === 0`:
true exactly when the field is absent, empty, or whitespace-only. -/
def systemTextMissing (input : AnalysisInput) : Bool :=
  match input.system_text with
  | none => true
  | some s => s.data.all isTrimWs

/-- `totalInputLength`: the lengths of `system_text`, `diagram_summary` and
the three snippet fields.  (`what_if` does not appear in the source
function.)  The route only calls this after `system_text` passed the
presence check, so defaulting the absent case to length 0 is unreachable. -/
def totalInputLength (input : AnalysisInput) : Nat :=
  (input.system_text.getD "").length +
  (input.diagram_summary.getD "").length +
  ((input.snippets.bind (fun s => s.config)).getD "").length +
  ((input.snippets.bind (fun s => s.logs)).getD "").length +
  ((input.snippets.bind (fun s => s.code)).getD "").length

/-! ## The Prompt Assembler (`buildUserPrompt`) -/

/-- A JavaScript template literal renders `undefined` as the text
`undefined`; the route interpolates `system_text` without a default. -/
def jsInterp : Option String → String
  | some s => s
  | none => "undefined"

/-- `buildUserPrompt`, template for template. -/
def buildUserPrompt (input : AnalysisInput) : String :=
  "system_text:\n" ++ jsInterp input.system_text ++ "\n\n" ++
  "diagram_summary:\n" ++ input.diagram_summary.getD "" ++ "\n\n" ++
  "snippets:\nconfig:\n" ++ ((input.snippets.bind (fun s => s.config)).getD "") ++
  "\nlogs:\n" ++ ((input.snippets.bind (fun s => s.logs)).getD "") ++
  "\ncode:\n" ++ ((input.snippets.bind (fun s => s.code)).getD "") ++ "\n\n" ++
  "what_if:\n" ++ input.what_if.getD "NONE"

/-! ## The Redaction Filter and the handler (`POST`) -/

/-- The disclosure note prepended to `safe_notes`. -/
def DISCLOSURE : String := "Some potentially unsafe terms were redacted."

/-- First value bound to key `k`, as reading a property of the parsed
object. -/
def lookupJKey (fs : List (String × Json)) (k : String) : Option Json :=
  match fs with
  | [] => none
  | (k0, v) :: r => if k0 = k then some v else lookupJKey r k

/-- `sanitizedJson.safe_notes = Array.isArray(old) ? [note, ...old] : [note]`. -/
def prependNote (old : Option Json) : Json :=
  match old with
  | some (Json.arr xs) => Json.arr (Json.str DISCLOSURE :: xs)
  | _ => Json.arr [ Json.str DISCLOSURE ]

/-- Lines 250-258 of the route: serialize the resolved value, run
`sanitizeOutput`, re-parse, and when anything was redacted install the
disclosure note.  A failing re-parse is the `SyntaxError` thrown by
`JSON.parse`; property assignment on a primitive throws `TypeError` in a
module's strict mode; on an array the assignment succeeds but creates a
non-index property that the JSON serialization of the response drops. -/
def noteStep (redacted : Bool) (w : Json) : Except String Json :=
  if redacted then
    match w with
    | Json.obj fs =>
        Except.ok (Json.obj (insertKey fs "safe_notes" (prependNote (lookupJKey fs "safe_notes"))))
    | Json.arr xs => Except.ok (Json.arr xs)
    | _ => Except.error "TypeError: Cannot create property on primitive value"
  else Except.ok w

/-- The redaction block of `POST`: serialize the resolved value, run
`sanitizeOutput`, re-parse, and install the disclosure note. -/
def redactAndNote (parsed : Json) : Except String Json :=
  let rawString := stringify parsed
  let sanitized := (sanitizeOutput rawString).1
  let redacted := (sanitizeOutput rawString).2
  match jsonParse sanitized with
  | none => Except.error "SyntaxError: Unexpected token in JSON"
  | some w => noteStep redacted w

instance {ε α : Type} [DecidableEq ε] [DecidableEq α] : DecidableEq (Except ε α) := fun a b =>
  match a, b with
  | Except.error e, Except.error e2 =>
      if h : e = e2 then isTrue (by rw [h]) else isFalse (by simp [h])
  | Except.ok x, Except.ok y =>
      if h : x = y then isTrue (by rw [h]) else isFalse (by simp [h])
  | Except.error _, Except.ok _ => isFalse (by simp)
  | Except.ok _, Except.error _ => isFalse (by simp)

/-- A JSON response with its HTTP status. -/
structure ApiResponse where
  status : Nat
  body : Json
deriving DecidableEq

/-- The catch-all handler of `POST`: every internally thrown error becomes
this 500 response; all errors thrown in the model are `Error` values, so
`details` and `raw_output` both carry the message. -/
def catchAll (msg : String) : ApiResponse :=
  ⟨500, Json.obj [ ("error", Json.str "Failed to analyze attack paths."),
                   ("details", Json.str msg),
                   ("raw_output", Json.str msg) ]⟩

/-- Outcome of the redaction block: a thrown error lands in the catch-all,
otherwise the sanitized value is the 200 response. -/
def redactStep : Except String Json → Nat → ApiResponse × Nat
  | Except.error e, n => (catchAll e, n)
  | Except.ok out, n => (⟨200, out⟩, n)

/-- The rest of the `try` block after `parseGeminiJson` settles: a thrown
error lands in the catch-all, a resolved value goes through the Redaction
Filter. -/
def resolveStep : Except String (Json × String) × Nat → ApiResponse × Nat
  | (Except.error e, n) => (catchAll e, n)
  | (Except.ok (parsed, _), n) => redactStep (redactAndNote parsed) n

/-- `POST`, over the pre-resolved API key and an already parsed request
body (a body that fails `request.json()` lands in the catch-all and is
outside this model), returning the response and the number of Model Client
invocations. -/
def POSTmodel (apiKey : Option String) (body : AnalysisInput)
    (oracle : Nat → FetchOutcome) : ApiResponse × Nat :=
  match apiKey with
  | none =>
      (⟨500, Json.obj [ ("error", Json.str "Missing GEMINI_API_KEY environment variable.") ]⟩, 0)
  | some _ =>
    if systemTextMissing body then
      (⟨400, Json.obj [ ("error", Json.str "System snapshot is required.") ]⟩, 0)
    else if totalInputLength body > MAX_TOTAL_CHARS then
      (⟨400, Json.obj [ ("error", Json.str "Input too large. Please keep total input under 25k characters.") ]⟩, 0)
    else
      let _userPrompt := buildUserPrompt body
      resolveStep (parseGeminiJsonM oracle)

/-! ## Definitions used to state the claims -/

/-- Literal case-insensitive prefix comparison (the claims' notion of
"keyword in any case combination"). -/
def ciPrefixEq : List Char → List Char → Bool
  | [], _ => true
  | _ :: _, [] => false
  | p :: ps, c :: cs => (p.toLower = c.toLower) && ciPrefixEq ps cs

/-- Literal case-insensitive substring containment. -/
def containsCIL (pat : List Char) (cs : List Char) : Bool :=
  ciPrefixEq pat cs ||
    (match cs with
     | [] => false
     | _ :: t => containsCIL pat t)

mutual

/-- Does some string field (a string value, at any depth) of the JSON value
contain `kw` as a case-insensitive literal substring? -/
def strFieldContainsCI (kw : List Char) (v : Json) : Bool :=
  match v with
  | .str s => containsCIL kw s.data
  | .arr xs => arrFieldContainsCI kw xs
  | .obj fs => objFieldContainsCI kw fs
  | _ => false

def arrFieldContainsCI (kw : List Char) (xs : List Json) : Bool :=
  match xs with
  | [] => false
  | x :: r => strFieldContainsCI kw x || arrFieldContainsCI kw r

def objFieldContainsCI (kw : List Char) (fs : List (String × Json)) : Bool :=
  match fs with
  | [] => false
  | (_, w) :: r => strFieldContainsCI kw w || objFieldContainsCI kw r

end

/-- Plain (case-sensitive) prefix comparison. -/
def plainPrefixEq : List Char → List Char → Bool
  | [], _ => true
  | _ :: _, [] => false
  | p :: ps, c :: cs => (p = c) && plainPrefixEq ps cs

/-- Plain substring containment. -/
def containsSubL (pat : List Char) (cs : List Char) : Bool :=
  plainPrefixEq pat cs ||
    (match cs with
     | [] => false
     | _ :: t => containsSubL pat t)

mutual

/-- Does the phrase occur anywhere in the JSON value (keys or string
values)? -/
def jsonMentions (pat : List Char) (v : Json) : Bool :=
  match v with
  | .str s => containsSubL pat s.data
  | .arr xs => arrMentions pat xs
  | .obj fs => objMentions pat fs
  | _ => false

def arrMentions (pat : List Char) (xs : List Json) : Bool :=
  match xs with
  | [] => false
  | x :: r => jsonMentions pat x || arrMentions pat r

def objMentions (pat : List Char) (fs : List (String × Json)) : Bool :=
  match fs with
  | [] => false
  | (k, w) :: r => containsSubL pat k.data || jsonMentions pat w || objMentions pat r

end

/-- Distinct keys in one object level. -/
def keysUniq : List (String × Json) → Bool
  | [] => true
  | (k, _) :: r => r.all (fun q => !(q.1 == k)) && keysUniq r

mutual

/-- Well-formed JSON values: every object level has distinct keys.  Values
resolved from `JSON.parse` always satisfy this (a JavaScript object cannot
hold a key twice); the inductive type is broader. -/
def wfB : Json → Bool
  | .arr xs => wfArr xs
  | .obj fs => keysUniq fs && wfObj fs
  | _ => true

def wfArr : List Json → Bool
  | [] => true
  | x :: r => wfB x && wfArr r

def wfObj : List (String × Json) → Bool
  | [] => true
  | (_, w) :: r => wfB w && wfObj r

end

/-- The lexeme that can follow a serialized number: not a digit and not a
fraction or exponent continuation. -/
def noNumTail : List Char → Bool
  | [] => true
  | c :: _ => !isDigitC c && !(c == '.') && !(c == 'e') && !(c == 'E')

mutual

/-- A parsing budget sufficient for one value. -/
def fuelV : Json → Nat
  | .arr (x :: xs) => 1 + fuelL (x :: xs)
  | .obj (f :: fs) => 1 + fuelF (f :: fs)
  | _ => 1

/-- A parsing budget sufficient for a non-empty item list. -/
def fuelL : List Json → Nat
  | [] => 1
  | x :: xs => 1 + fuelV x + fuelL xs

/-- A parsing budget sufficient for a non-empty member list. -/
def fuelF : List (String × Json) → Nat
  | [] => 1
  | (_, w) :: fs => 1 + fuelV w + fuelF fs

end

/-- Does the response body carry a non-empty `error` field? -/
def errNonempty (body : Json) : Bool :=
  match body with
  | Json.obj fs =>
    match lookupJKey fs "error" with
    | some (Json.str s) => !(s == "")
    | _ => false
  | _ => false

/-- The total that claim C4 describes, written from its words: the sum of
the character lengths of all text fields of the request, `what_if`
included. -/
def claimC4Total (input : AnalysisInput) : Nat :=
  (input.system_text.getD "").length +
  (input.diagram_summary.getD "").length +
  ((input.snippets.bind (fun s => s.config)).getD "").length +
  ((input.snippets.bind (fun s => s.logs)).getD "").length +
  ((input.snippets.bind (fun s => s.code)).getD "").length +
  (input.what_if.getD "").length

/-- Claim C8's reading of text extraction: the plain concatenation of the
first candidate's text fragments, when the chain of fields exists. -/
def concatFragments (r : GeminiResponse) : Option String :=
  (((r.candidates.bind (fun cs => cs.head?)).bind
    (fun c => c.content)).bind
    (fun ct => ct.parts)).map
    (fun ps => String.join (ps.map (fun p => p.text.getD "")))

/-- The amended description of `extractText`, written from its words:
the whitespace-trimmed concatenation of the first candidate's text
fragments (absent fragments contributing the empty string), and the empty
string when there is no candidate list, no candidate, no content, or no
parts list. -/
def extractTextSpec (r : GeminiResponse) : String :=
  match r.candidates with
  | none => ""
  | some cands =>
    match cands with
    | [] => ""
    | c :: _ =>
      match c.content with
      | none => ""
      | some ct =>
        match ct.parts with
        | none => ""
        | some ps => jsTrim (String.join (ps.map (fun p => p.text.getD "")))

/-- The user-content block as the spec words it: `system_text` and each
optional field interpolated, absent snippets as the empty string, absent
`what_if` as the literal marker `NONE`. -/
def userBlockSpec (input : AnalysisInput) : String :=
  "system_text:\n" ++ input.system_text.getD "" ++ "\n\n" ++
  "diagram_summary:\n" ++
    (match input.diagram_summary with
     | some d => d
     | none => "") ++ "\n\n" ++
  "snippets:\nconfig:\n" ++
    (match input.snippets with
     | some sn =>
       match sn.config with
       | some c => c
       | none => ""
     | none => "") ++
  "\nlogs:\n" ++
    (match input.snippets with
     | some sn =>
       match sn.logs with
       | some l => l
       | none => ""
     | none => "") ++
  "\ncode:\n" ++
    (match input.snippets with
     | some sn =>
       match sn.code with
       | some c => c
       | none => ""
     | none => "") ++ "\n\n" ++
  "what_if:\n" ++
    (match input.what_if with
     | some w => w
     | none => "NONE")

/-- No keyword of the redaction list occurs in `s` as a case-insensitive
literal substring (claim C3's hypothesis, as written). -/
def noKeywordCISubstring (s : String) : Bool :=
  EXPLOIT_KEYWORDS.all (fun kw => !(containsCIL kw.data s.data))

/-- No keyword pattern of the redaction list matches anywhere in `s` under
the code's `gi`-regex semantics (the `.` of `cmd.exe` as a wildcard). -/
def noKeywordMatch (s : String) : Bool :=
  EXPLOIT_KEYWORDS.all (fun kw => !(testPat kw.data s.data))

/-- The character classes the redaction keywords are drawn from: ASCII
letters (through their lowercase code), space, hyphen, and the regex
dot. -/
def plainPat (p : Char) : Bool :=
  (97 ≤ p.toLower.toNat && p.toLower.toNat ≤ 122) || p = ' ' || p = '-' || p = '.'

/-! ## Concrete fixtures for witnesses and counterexamples -/

/-- A well-formed request body with a plain `system_text`. -/
def okBody : AnalysisInput := ⟨none, some "demo system", none, none, none⟩

/-- A resolved value whose string field contains the keyword
`reverse shell`, preceded by a carriage return: the serialized form is
`"\reverse shell and reverse shell"`, the keyword scanner also matches the
`r` of the `\r` escape, and the replacement leaves the invalid escape
`\[`. -/
def vCR : Json :=
  Json.obj [ ("a", Json.str ("\reverse shell and reverse shell")) ]

/-- A resolved value whose string field contains `cmd-exe`: no keyword is a
literal substring, but the `cmd.exe` pattern matches it through the `.`
wildcard. -/
def vDot : Json := Json.obj [ ("a", Json.str "cmd-exe") ]

/-- A resolved value mentioning `metasploit` inside a string field. -/
def vMeta : Json := Json.obj [ ("a", Json.str "use metasploit to gain access") ]

/-- A keyword-free resolved value carrying its own `safe_notes`. -/
def vPlain : Json :=
  Json.obj [ ("b", Json.str "hello"), ("safe_notes", Json.arr [ Json.str "x" ]) ]

/-- A response whose only text fragment carries surrounding whitespace. -/
def rPadded : GeminiResponse :=
  ⟨some [ ⟨some ⟨some [ ⟨some " a "⟩ ]⟩⟩ ]⟩

/-- A response whose text is valid JSON. -/
def rGood : GeminiResponse :=
  ⟨some [ ⟨some ⟨some [ ⟨some "[1, 2]"⟩ ]⟩⟩ ]⟩

/-- A response whose text is not JSON. -/
def rBad : GeminiResponse :=
  ⟨some [ ⟨some ⟨some [ ⟨some "nope"⟩ ]⟩⟩ ]⟩

/-- A second non-JSON response, distinct from `rBad`. -/
def rBad2 : GeminiResponse :=
  ⟨some [ ⟨some ⟨some [ ⟨some "broken"⟩ ]⟩⟩ ]⟩

/-- An oracle whose two calls return the two non-JSON texts. -/
def oracleBadBad : Nat → FetchOutcome := fun n =>
  match n with
  | 0 => FetchOutcome.success rBad
  | _ => FetchOutcome.success rBad2

/-- The body of claim C4's counterexample: a tiny `system_text` and a
25,000-character `what_if`. -/
def bigWhatIf : String := String.mk (List.replicate 25000 'x')

/-- Request whose `what_if` pushes the claimed total over the limit while
the code's total stays at 1. -/
def bodyBigWhatIf : AnalysisInput := ⟨none, some "a", none, none, some bigWhatIf⟩

/-- Request whose `diagram_summary` alone exceeds the limit. -/
def bodyBigDiagram : AnalysisInput := ⟨none, some "a", some bigWhatIf, none, none⟩

/-! ## Claim theorems -/

/-- Claim C2: when both the primary call and the repair call succeed at the
transport level but neither extracted text parses as JSON, the resolver
fails, carrying the repaired text — or the original text when the repaired
text is empty — and exactly two Model Client invocations occur, never
three. -/
theorem C2_double_parse_failure (oracle : Nat → FetchOutcome) (r0 r1 : GeminiResponse)
    (h0 : oracle 0 = FetchOutcome.success r0) (h1 : oracle 1 = FetchOutcome.success r1)
    (hp0 : jsonParse (extractText r0) = none) (hp1 : jsonParse (extractText r1) = none) :
    parseGeminiJsonM oracle =
      (Except.error (if extractText r1 = "" then extractText r0 else extractText r1), 2) := by
  unfold parseGeminiJsonM
  rw [h0, h1]
  simp [callGemini, hp0, hp1]

/-- Witness for C2 at a concrete oracle: two unparseable texts, failure
payload `broken`, two calls. -/
theorem C2_double_parse_failure_witness :
    parseGeminiJsonM oracleBadBad = (Except.error "broken", 2) := by
  have h := C2_double_parse_failure oracleBadBad rBad rBad2 rfl rfl (by decide) (by decide)
  exact h.trans (by decide)

/-- Claim C5: a request whose `system_text` is missing, empty, or
whitespace-only is rejected with status 400 and the message
`System snapshot is required.`, and no Model Client call occurs. -/
theorem C5_empty_system_text (k : String) (body : AnalysisInput)
    (oracle : Nat → FetchOutcome) (h : systemTextMissing body = true) :
    POSTmodel (some k) body oracle =
      (⟨400, Json.obj [ ("error", Json.str "System snapshot is required.") ]⟩, 0) := by
  unfold POSTmodel
  rw [if_pos h]

/-- Witness for C5 at a whitespace-only `system_text`. -/
theorem C5_empty_system_text_witness :
    POSTmodel (some "key") ⟨none, some "   ", none, none, none⟩
      (fun _ => FetchOutcome.reject "x") =
      (⟨400, Json.obj [ ("error", Json.str "System snapshot is required.") ]⟩, 0) :=
  C5_empty_system_text "key" _ _ (by decide)

/-- Claim C6: when the first call's extracted text parses as JSON, the
resolver returns that parsed value together with the raw text, and only one
Model Client invocation occurs. -/
theorem C6_first_parse_success (oracle : Nat → FetchOutcome) (r0 : GeminiResponse)
    (v : Json) (h0 : oracle 0 = FetchOutcome.success r0)
    (hp : jsonParse (extractText r0) = some v) :
    parseGeminiJsonM oracle = (Except.ok (v, extractText r0), 1) := by
  unfold parseGeminiJsonM
  rw [h0]
  simp [callGemini, hp]

/-- Witness for C6 at a concrete parseable first response. -/
theorem C6_first_parse_success_witness :
    parseGeminiJsonM (fun _ => FetchOutcome.success rGood) =
      (Except.ok (Json.arr [ Json.num 1, Json.num 2 ], "[1, 2]"), 1) := by
  have h := C6_first_parse_success (fun _ => FetchOutcome.success rGood) rGood
    (Json.arr [ Json.num 1, Json.num 2 ]) rfl (by decide)
  exact h.trans (by decide)

/-- Counterexample to claim C7: on a connectivity failure the handler does
not surface `backend unreachable`; it returns the same generic catch-all
500 shape that a non-success backend response produces, the two
distinguishable only through the `details` text. -/
theorem C7_counterexample :
    (POSTmodel (some "k") okBody (fun _ => FetchOutcome.reject "fetch failed")).1 =
      catchAll "fetch failed" ∧
    (POSTmodel (some "k") okBody (fun _ => FetchOutcome.httpError 502 "bad gateway")).1 =
      catchAll "Gemini API error: 502 bad gateway" ∧
    jsonMentions "backend unreachable".data (catchAll "fetch failed").body = false ∧
    errNonempty (catchAll "fetch failed").body =
      errNonempty (catchAll "Gemini API error: 502 bad gateway").body := by
  exact ⟨by decide, by decide, by decide, by decide⟩

/-- Claim C7 amended: a transport failure propagates to the generic
catch-all and is surfaced as the same 500 `Failed to analyze attack paths.`
response shape as a backend error, carrying the underlying message in
`details`; no distinct `backend unreachable` surface exists. -/
theorem C7_amended (k m : String) (s : Nat) (d : String) :
    POSTmodel (some k) okBody (fun _ => FetchOutcome.reject m) = (catchAll m, 1) ∧
    POSTmodel (some k) okBody (fun _ => FetchOutcome.httpError s d) =
      (catchAll ("Gemini API error: " ++ toString s ++ " " ++ d), 1) := by
  constructor
  · unfold POSTmodel
    rw [if_neg (by decide), if_neg (by decide)]
    simp [parseGeminiJsonM, callGemini, resolveStep]
  · unfold POSTmodel
    rw [if_neg (by decide), if_neg (by decide)]
    simp [parseGeminiJsonM, callGemini, resolveStep]

/-- Counterexample to claim C8: extraction is not the plain concatenation
of the first candidate's text fragments — the route trims the result. -/
theorem C8_counterexample :
    concatFragments rPadded = some " a " ∧ extractText rPadded = "a" ∧
    extractText rPadded ≠ (concatFragments rPadded).getD "" := by
  exact ⟨by decide, by decide, by decide⟩

/-- Claim C8 amended: for every successful backend response, extraction
returns the whitespace-trimmed concatenation of the first candidate's text
fragments (absent fragment texts contributing the empty string), and the
empty string when there is no candidate list, no candidate, no content, or
no parts list. -/
theorem C8_amended (r : GeminiResponse) : extractText r = extractTextSpec r := by
  rcases r with ⟨cands⟩
  rcases cands with _ | cs
  · rfl
  · rcases cs with _ | ⟨c, rest⟩
    · rfl
    · rcases c with ⟨ct⟩
      rcases ct with _ | ⟨ps⟩
      · rfl
      · rcases ps with _ | l
        · rfl
        · rfl

/-- Claim C9: the user-content block is a pure function of the validated
request interpolating `system_text`, `diagram_summary` (empty if absent),
the three snippet fields (empty if absent), and `what_if` or the literal
marker `NONE` when absent. -/
theorem C9_prompt_assembly (input : AnalysisInput) (s : String)
    (h : input.system_text = some s) :
    buildUserPrompt input = userBlockSpec input := by
  rcases input with ⟨pn, st, ds, sn, wi⟩
  subst h
  rcases sn with _ | ⟨oc, ol, ocd⟩
  · rcases ds with _ | d <;> rcases wi with _ | w <;> rfl
  · rcases oc with _ | c <;> rcases ol with _ | l <;> rcases ocd with _ | cd <;>
      rcases ds with _ | d <;> rcases wi with _ | w <;> rfl

/-- Witness for C9 at a concrete validated request. -/
theorem C9_prompt_assembly_witness :
    buildUserPrompt okBody = userBlockSpec okBody :=
  C9_prompt_assembly okBody "demo system" rfl


theorem POSTmodel_pass (k : String) (body : AnalysisInput) (oracle : Nat → FetchOutcome)
    (h1 : systemTextMissing body = false)
    (h2 : totalInputLength body ≤ MAX_TOTAL_CHARS) :
    POSTmodel (some k) body oracle = resolveStep (parseGeminiJsonM oracle) := by
  unfold POSTmodel
  rw [if_neg (by simp [h1]), if_neg (by omega)]

theorem resolveStep_shape (p : Except String (Json × String) × Nat) :
    ((resolveStep p).1.status = 200 ∨ (resolveStep p).1.status = 500) ∧
    ((resolveStep p).1.status ≠ 200 → errNonempty (resolveStep p).1.body = true) := by
  rcases p with ⟨res, n⟩
  rcases res with e | ⟨parsed, raw⟩
  · exact ⟨Or.inr rfl, fun _ => rfl⟩
  · simp only [resolveStep]
    generalize redactAndNote parsed = q
    rcases q with e2 | out
    · exact ⟨Or.inr rfl, fun _ => rfl⟩
    · exact ⟨Or.inl rfl, fun hne => absurd rfl hne⟩

/-- Claim C10: the handler is total over its error paths — every response
has status 200, 400 or 500, and every non-200 response carries a non-empty
human-readable `error` field. -/
theorem C10_total_error_paths (apiKey : Option String) (body : AnalysisInput)
    (oracle : Nat → FetchOutcome) :
    ((POSTmodel apiKey body oracle).1.status = 200 ∨
     (POSTmodel apiKey body oracle).1.status = 400 ∨
     (POSTmodel apiKey body oracle).1.status = 500) ∧
    ((POSTmodel apiKey body oracle).1.status ≠ 200 →
      errNonempty (POSTmodel apiKey body oracle).1.body = true) := by
  rcases apiKey with _ | k
  · exact ⟨Or.inr (Or.inr rfl), fun _ => rfl⟩
  · by_cases h1 : systemTextMissing body = true
    · rw [show POSTmodel (some k) body oracle =
        (⟨400, Json.obj [ ("error", Json.str "System snapshot is required.") ]⟩, 0) from
        by unfold POSTmodel; rw [if_pos h1]]
      exact ⟨Or.inr (Or.inl rfl), fun _ => rfl⟩
    · by_cases h2 : totalInputLength body > MAX_TOTAL_CHARS
      · rw [show POSTmodel (some k) body oracle =
          (⟨400, Json.obj [ ("error",
            Json.str "Input too large. Please keep total input under 25k characters.") ]⟩, 0) from
          by unfold POSTmodel; rw [if_neg h1, if_pos h2]]
        exact ⟨Or.inr (Or.inl rfl), fun _ => rfl⟩
      · rw [POSTmodel_pass k body oracle (by simp at h1; exact h1) (by omega)]
        rcases resolveStep_shape (parseGeminiJsonM oracle) with ⟨hst, herr⟩
        exact ⟨hst.imp id (fun h => Or.inr h), herr⟩

/-- `totalInputLength` on an explicit record, field by field. -/
theorem totalInputLength_mk (pn st ds sn wi : _) :
    totalInputLength ⟨pn, st, ds, sn, wi⟩ =
      (st.getD "").length + (ds.getD "").length +
      ((sn.bind (fun s => s.config)).getD "").length +
      ((sn.bind (fun s => s.logs)).getD "").length +
      ((sn.bind (fun s => s.code)).getD "").length := rfl

/-- The claimed total on an explicit record, field by field. -/
theorem claimC4Total_mk (pn st ds sn wi : _) :
    claimC4Total ⟨pn, st, ds, sn, wi⟩ =
      (st.getD "").length + (ds.getD "").length +
      ((sn.bind (fun s => s.config)).getD "").length +
      ((sn.bind (fun s => s.logs)).getD "").length +
      ((sn.bind (fun s => s.code)).getD "").length +
      (wi.getD "").length := rfl

/-- Counterexample to claim C4: `what_if` is not counted by
`totalInputLength` — a request whose text fields sum to 25,001 characters
(1 in `system_text`, 25,000 in `what_if`) sails past the size check and
reaches the Model Client. -/
theorem C4_counterexample :
    claimC4Total bodyBigWhatIf > MAX_TOTAL_CHARS ∧
    totalInputLength bodyBigWhatIf = 1 ∧
    (POSTmodel (some "k") bodyBigWhatIf (fun _ => FetchOutcome.reject "boom")).1 =
      catchAll "boom" := by
  have hb : bigWhatIf.length = 25000 := by
    unfold bigWhatIf
    rw [String.length_mk, List.length_replicate]
  refine ⟨?_, by decide, by decide⟩
  rw [show bodyBigWhatIf =
    (⟨none, some "a", none, none, some bigWhatIf⟩ : AnalysisInput) from rfl]
  rw [claimC4Total_mk]
  have e6 : ((some bigWhatIf).getD "" : String) = bigWhatIf := rfl
  rw [e6, hb]
  decide

/-- Claim C4 amended: with the presence check passed, the handler rejects
with the `Input too large.` 400 response exactly when the sum of the
lengths of `system_text`, `diagram_summary` and the three snippet fields
exceeds 25,000; the length of `what_if` is not counted. -/
theorem C4_amended (k : String) (body : AnalysisInput) (oracle : Nat → FetchOutcome)
    (hs : systemTextMissing body = false) :
    (POSTmodel (some k) body oracle =
      (⟨400, Json.obj [ ("error",
        Json.str "Input too large. Please keep total input under 25k characters.") ]⟩, 0)) ↔
    totalInputLength body > MAX_TOTAL_CHARS := by
  constructor
  · intro h
    by_contra hn
    rw [POSTmodel_pass k body oracle hs (by omega)] at h
    have hst := (resolveStep_shape (parseGeminiJsonM oracle)).1
    rw [h] at hst
    rcases hst with h2 | h2 <;> exact absurd h2 (by decide)
  · intro h
    unfold POSTmodel
    rw [if_neg (by simp [hs]), if_pos h]

/-- Witness for C4 amended: an oversized `diagram_summary` fires the size
check. -/
theorem C4_amended_witness :
    POSTmodel (some "k") bodyBigDiagram (fun _ => FetchOutcome.reject "boom") =
      (⟨400, Json.obj [ ("error",
        Json.str "Input too large. Please keep total input under 25k characters.") ]⟩, 0) := by
  have hb : bigWhatIf.length = 25000 := by
    unfold bigWhatIf
    rw [String.length_mk, List.length_replicate]
  have h := C4_amended "k" bodyBigDiagram (fun _ => FetchOutcome.reject "boom") (by decide)
  refine h.mpr ?_
  rw [show bodyBigDiagram =
    (⟨none, some "a", some bigWhatIf, none, none⟩ : AnalysisInput) from rfl]
  rw [totalInputLength_mk]
  have e2b : ((some bigWhatIf).getD "" : String) = bigWhatIf := rfl
  rw [e2b, hb]
  decide

theorem sanitizeFold_sticky : ∀ (l : List String) (p : String × Bool), p.2 = true →
    (List.foldl sanitizeStep p l).2 = true
  | [], _, h => h
  | kw :: rest, p, h => by
    simp only [List.foldl_cons]
    apply sanitizeFold_sticky rest
    unfold sanitizeStep
    by_cases ht : testPat kw.data p.1.data = true
    · rw [if_pos ht]
    · rw [if_neg ht]
      exact h

theorem sanitizeFold_false : ∀ (l : List String) (s : String),
    (List.foldl sanitizeStep (s, false) l).2 = false →
    (List.foldl sanitizeStep (s, false) l).1 = s ∧
      ∀ kw ∈ l, testPat kw.data s.data = false
  | [], _, _ => ⟨rfl, by simp⟩
  | kw :: rest, s, h => by
    simp only [List.foldl_cons] at h ⊢
    by_cases ht : testPat kw.data s.data = true
    · exfalso
      have hs : (sanitizeStep (s, false) kw).2 = true := by
        unfold sanitizeStep
        rw [if_pos ht]
      have := sanitizeFold_sticky rest (sanitizeStep (s, false) kw) hs
      rw [this] at h
      exact absurd h (by simp)
    · have hs : sanitizeStep (s, false) kw = (s, false) := by
        unfold sanitizeStep
        rw [if_neg ht]
      rw [hs] at h ⊢
      rcases sanitizeFold_false rest s h with ⟨h1, h2⟩
      refine ⟨h1, ?_⟩
      intro kw2 hm
      rcases List.mem_cons.mp hm with hk | hm2
      · subst hk
        simpa using ht
      · exact h2 kw2 hm2

theorem sanitizeFold_id : ∀ (l : List String) (s : String),
    (∀ kw ∈ l, testPat kw.data s.data = false) →
    List.foldl sanitizeStep (s, false) l = (s, false)
  | [], _, _ => rfl
  | kw :: rest, s, h => by
    simp only [List.foldl_cons]
    have hs : sanitizeStep (s, false) kw = (s, false) := by
      unfold sanitizeStep
      rw [if_neg (by simp [h kw (by simp)])]
    rw [hs]
    exact sanitizeFold_id rest s (fun k hk => h k (List.mem_cons_of_mem kw hk))

theorem sanitizeOutput_flag (s : String) (kw : String) (hm : kw ∈ EXPLOIT_KEYWORDS)
    (ht : testPat kw.data s.data = true) : (sanitizeOutput s).2 = true := by
  unfold sanitizeOutput
  by_cases hf : (List.foldl sanitizeStep (s, false) EXPLOIT_KEYWORDS).2 = true
  · exact hf
  · rcases sanitizeFold_false EXPLOIT_KEYWORDS s (by simpa using hf) with ⟨_, hall⟩
    rw [hall kw hm] at ht
    exact absurd ht (by simp)

theorem sanitizeOutput_noKw (s : String)
    (h : ∀ kw ∈ EXPLOIT_KEYWORDS, testPat kw.data s.data = false) :
    sanitizeOutput s = (s, false) :=
  sanitizeFold_id EXPLOIT_KEYWORDS s h

/-- Counterexample to claim C1: `vCR`'s string field contains the keyword
`reverse shell`, but the redaction scanner also matches the occurrence that
starts at the `r` of the `\r` escape in the serialized text; replacing it
leaves the invalid escape `\[`, the re-parse of the redacted text throws,
and the Redaction Filter returns no value at all — no marker, no
`safe_notes` note. -/
theorem C1_counterexample :
    strFieldContainsCI "reverse shell".data vCR = true ∧
    "reverse shell" ∈ EXPLOIT_KEYWORDS ∧
    redactAndNote vCR = Except.error "SyntaxError: Unexpected token in JSON" := by
  exact ⟨by decide, by decide, by decide⟩


theorem matchAt_append (pat u w : List Char) (h : matchAt pat u = true) :
    matchAt pat (u ++ w) = true := by
  induction pat generalizing u with
  | nil => rfl
  | cons p ps ih =>
    cases u with
    | nil => exact absurd h (by simp [matchAt])
    | cons c cs =>
      simp only [matchAt, Bool.and_eq_true] at h
      simp only [List.cons_append, matchAt, Bool.and_eq_true]
      exact ⟨h.1, ih cs h.2⟩

theorem testPat_append_right (pat u w : List Char) (h : testPat pat u = true) :
    testPat pat (u ++ w) = true := by
  induction u with
  | nil =>
    cases pat with
    | nil => unfold testPat; simp [matchAt]
    | cons p ps => exact absurd h (by simp [testPat, matchAt])
  | cons c cs ih =>
    unfold testPat at h
    simp only [Bool.or_eq_true] at h
    show testPat pat (c :: (cs ++ w)) = true
    unfold testPat
    simp only [Bool.or_eq_true]
    rcases h with h1 | h2
    · exact Or.inl (matchAt_append pat (c :: cs) w h1)
    · exact Or.inr (ih h2)

theorem testPat_append_left (pat pre t : List Char) (h : testPat pat t = true) :
    testPat pat (pre ++ t) = true := by
  induction pre with
  | nil => exact h
  | cons c cs ih =>
    show testPat pat (c :: (cs ++ t)) = true
    unfold testPat
    simp only [Bool.or_eq_true]
    exact Or.inr ih

theorem exploit_keywords_plain :
    EXPLOIT_KEYWORDS.all (fun kw => kw.data.all plainPat) = true := by decide

theorem char_range_of_ci (p c : Char) (hp : plainPat p = true) (h : p.toLower = c.toLower) :
    (65 ≤ c.toNat ∧ c.toNat ≤ 90) ∨ (97 ≤ c.toNat ∧ c.toNat ≤ 122) ∨
      c.toNat = 32 ∨ c.toNat = 45 ∨ c.toNat = 46 := by
  by_cases hu : 65 ≤ c.toNat ∧ c.toNat ≤ 90
  · exact Or.inl hu
  · have hlow : c.toLower = c := by
      unfold Char.toLower
      rw [if_neg (by omega)]
    have hpc : p.toLower = c := h.trans hlow
    have hcases : (((97 ≤ p.toLower.toNat ∧ p.toLower.toNat ≤ 122) ∨ p = ' ') ∨
        p = '-') ∨ p = '.' := by
      simpa [plainPat, Bool.or_eq_true, Bool.and_eq_true,
        decide_eq_true_eq] using hp
    rcases hcases with ((h1 | h1) | h1) | h1
    · rw [hpc] at h1
      exact Or.inr (Or.inl h1)
    · subst h1
      have : c.toNat = 32 := by rw [← hpc]; decide
      exact Or.inr (Or.inr (Or.inl this))
    · subst h1
      have : c.toNat = 45 := by rw [← hpc]; decide
      exact Or.inr (Or.inr (Or.inr (Or.inl this)))
    · subst h1
      have : c.toNat = 46 := by rw [← hpc]; decide
      exact Or.inr (Or.inr (Or.inr (Or.inr this)))

theorem escChar_plain (p c : Char) (hp : plainPat p = true) (h : p.toLower = c.toLower) :
    escChar c = [ c ] := by
  have hr := char_range_of_ci p c hp h
  have htn : 32 ≤ c.toNat ∧ c.toNat ≠ 34 ∧ c.toNat ≠ 92 := by
    rcases hr with h1 | h1 | h1 | h1 | h1 <;> omega
  have k1 : c ≠ '"' := fun he => by
    rw [he] at htn
    exact absurd htn.2.1 (by decide)
  have k2 : c ≠ '\\' := fun he => by
    rw [he] at htn
    exact absurd htn.2.2 (by decide)
  have k3 : c ≠ Char.ofNat 8 := fun he => by
    rw [he] at htn
    exact absurd htn.1 (by decide)
  have k4 : c ≠ Char.ofNat 12 := fun he => by
    rw [he] at htn
    exact absurd htn.1 (by decide)
  have k5 : c ≠ '\n' := fun he => by
    rw [he] at htn
    exact absurd htn.1 (by decide)
  have k6 : c ≠ '\r' := fun he => by
    rw [he] at htn
    exact absurd htn.1 (by decide)
  have k7 : c ≠ '\t' := fun he => by
    rw [he] at htn
    exact absurd htn.1 (by decide)
  have k8 : ¬(c.toNat < 32) := by omega
  unfold escChar
  rw [if_neg k1, if_neg k2, if_neg k3, if_neg k4, if_neg k5, if_neg k6, if_neg k7,
    if_neg k8]

theorem patCharM_of_ci (p c : Char) (hp : plainPat p = true) (h : p.toLower = c.toLower) :
    patCharM p c = true := by
  unfold patCharM
  by_cases hd : p = '.'
  · rw [if_pos hd]
    subst hd
    have k1 : c ≠ '\n' := fun he => by rw [he] at h; exact absurd h (by decide)
    have k2 : c ≠ '\r' := fun he => by rw [he] at h; exact absurd h (by decide)
    have k3 : c ≠ Char.ofNat 8232 := fun he => by rw [he] at h; exact absurd h (by decide)
    have k4 : c ≠ Char.ofNat 8233 := fun he => by rw [he] at h; exact absurd h (by decide)
    simp [k1, k2, k3, k4]
  · rw [if_neg hd]
    simp [h]

theorem ciPrefix_escStr_matchAt (pat : List Char) (hplain : pat.all plainPat = true) :
    ∀ s : List Char, ciPrefixEq pat s = true → matchAt pat (escStr s) = true := by
  induction pat with
  | nil => intro s _; rfl
  | cons p ps ih =>
    intro s h
    cases s with
    | nil => exact absurd h (by simp [ciPrefixEq])
    | cons c cs =>
      simp only [ciPrefixEq, Bool.and_eq_true, decide_eq_true_eq] at h
      simp only [List.all_cons, Bool.and_eq_true] at hplain
      show matchAt (p :: ps) (escChar c ++ escStr cs) = true
      rw [escChar_plain p c hplain.1 h.1]
      simp only [List.cons_append, List.nil_append, matchAt, Bool.and_eq_true]
      exact ⟨patCharM_of_ci p c hplain.1 h.1, ih hplain.2 cs h.2⟩

theorem containsCI_testPat_escStr (pat : List Char) (hplain : pat.all plainPat = true) :
    ∀ s : List Char, containsCIL pat s = true → testPat pat (escStr s) = true := by
  intro s
  induction s with
  | nil =>
    intro h
    cases pat with
    | nil => simp [testPat, matchAt, escStr]
    | cons p ps => exact absurd h (by simp [containsCIL, ciPrefixEq])
  | cons c cs ih =>
    intro h
    unfold containsCIL at h
    simp only [Bool.or_eq_true] at h
    show testPat pat (escChar c ++ escStr cs) = true
    rcases h with h1 | h2
    · have hm := ciPrefix_escStr_matchAt pat hplain (c :: cs) h1
      have : testPat pat (escStr (c :: cs)) = true := by
        unfold testPat
        simp only [Bool.or_eq_true]
        exact Or.inl hm
      exact this
    · exact testPat_append_left pat (escChar c) (escStr cs) (ih h2)

mutual

theorem strField_testPat_render (kw : List Char) (hplain : kw.all plainPat = true)
    (v : Json) (ind : List Char) (h : strFieldContainsCI kw v = true) :
    testPat kw (renderVal v ind) = true :=
  match v, h with
  | .str s, h => by
    have hb : testPat kw (escStr s.data) = true :=
      containsCI_testPat_escStr kw hplain s.data (by simpa [strFieldContainsCI] using h)
    have h1 : testPat kw (escStr s.data ++ [ '"' ]) = true :=
      testPat_append_right kw (escStr s.data) [ '"' ] hb
    exact testPat_append_left kw [ '"' ] (escStr s.data ++ [ '"' ]) h1
  | .arr (x :: xs), h => by
    have hsplit : strFieldContainsCI kw x = true ∨ arrFieldContainsCI kw xs = true := by
      have : arrFieldContainsCI kw (x :: xs) = true := by
        simpa [strFieldContainsCI] using h
      simpa [arrFieldContainsCI, Bool.or_eq_true] using this
    show testPat kw ('[' :: '\n' :: ((ind ++ sp2) ++ (renderVal x (ind ++ sp2) ++
      (renderMore xs (ind ++ sp2) ++ ('\n' :: (ind ++ [ ']' ])))))) = true
    rcases hsplit with h1 | h1
    · have t0 := strField_testPat_render kw hplain x (ind ++ sp2) h1
      have t1 := testPat_append_right kw (renderVal x (ind ++ sp2))
        (renderMore xs (ind ++ sp2) ++ ('\n' :: (ind ++ [ ']' ]))) t0
      have t2 := testPat_append_left kw (ind ++ sp2) _ t1
      exact testPat_append_left kw [ '[', '\n' ] _ t2
    · have t0 := more_testPat_render kw hplain xs (ind ++ sp2) h1
      have t1 := testPat_append_right kw (renderMore xs (ind ++ sp2))
        ('\n' :: (ind ++ [ ']' ])) t0
      have t2 := testPat_append_left kw (renderVal x (ind ++ sp2)) _ t1
      have t3 := testPat_append_left kw (ind ++ sp2) _ t2
      exact testPat_append_left kw [ '[', '\n' ] _ t3
  | .obj ((k, w) :: fs), h => by
    have hsplit : strFieldContainsCI kw w = true ∨ objFieldContainsCI kw fs = true := by
      have : objFieldContainsCI kw ((k, w) :: fs) = true := by
        simpa [strFieldContainsCI] using h
      simpa [objFieldContainsCI, Bool.or_eq_true] using this
    show testPat kw ('{' :: '\n' :: ((ind ++ sp2) ++
      ('"' :: (escStr k.data ++ ('"' :: ':' :: ' ' :: renderVal w (ind ++ sp2))) ++
      (renderFMore fs (ind ++ sp2) ++ ('\n' :: (ind ++ [ '}' ])))))) = true
    rcases hsplit with h1 | h1
    · have t0 := strField_testPat_render kw hplain w (ind ++ sp2) h1
      have t1 := testPat_append_left kw [ '"', ':', ' ' ] _ t0
      have t2 := testPat_append_left kw (escStr k.data)
        ('"' :: ':' :: ' ' :: renderVal w (ind ++ sp2)) t1
      have t3 := testPat_append_right kw
        (escStr k.data ++ ('"' :: ':' :: ' ' :: renderVal w (ind ++ sp2)))
        (renderFMore fs (ind ++ sp2) ++ ('\n' :: (ind ++ [ '}' ]))) t2
      have t4 := testPat_append_left kw [ '"' ] _ t3
      have t5 := testPat_append_left kw (ind ++ sp2) _ t4
      exact testPat_append_left kw [ '{', '\n' ] _ t5
    · have t0 := fmore_testPat_render kw hplain fs (ind ++ sp2) h1
      have t1 := testPat_append_right kw (renderFMore fs (ind ++ sp2))
        ('\n' :: (ind ++ [ '}' ])) t0
      have t2 := testPat_append_left kw
        ('"' :: (escStr k.data ++ ('"' :: ':' :: ' ' :: renderVal w (ind ++ sp2)))) _ t1
      have t3 := testPat_append_left kw (ind ++ sp2) _ t2
      exact testPat_append_left kw [ '{', '\n' ] _ t3
termination_by sizeOf v

theorem more_testPat_render (kw : List Char) (hplain : kw.all plainPat = true)
    (xs : List Json) (ind : List Char) (h : arrFieldContainsCI kw xs = true) :
    testPat kw (renderMore xs ind) = true :=
  match xs, h with
  | x :: rest, h => by
    have hsplit : strFieldContainsCI kw x = true ∨ arrFieldContainsCI kw rest = true := by
      simpa [arrFieldContainsCI, Bool.or_eq_true] using h
    show testPat kw (',' :: '\n' :: (ind ++ (renderVal x ind ++ renderMore rest ind))) = true
    rcases hsplit with h1 | h1
    · have t0 := strField_testPat_render kw hplain x ind h1
      have t1 := testPat_append_right kw (renderVal x ind) (renderMore rest ind) t0
      have t2 := testPat_append_left kw ind _ t1
      exact testPat_append_left kw [ ',', '\n' ] _ t2
    · have t0 := more_testPat_render kw hplain rest ind h1
      have t1 := testPat_append_left kw (renderVal x ind) _ t0
      have t2 := testPat_append_left kw ind _ t1
      exact testPat_append_left kw [ ',', '\n' ] _ t2
termination_by sizeOf xs

theorem fmore_testPat_render (kw : List Char) (hplain : kw.all plainPat = true)
    (fs : List (String × Json)) (ind : List Char) (h : objFieldContainsCI kw fs = true) :
    testPat kw (renderFMore fs ind) = true :=
  match fs, h with
  | (k, w) :: rest, h => by
    have hsplit : strFieldContainsCI kw w = true ∨ objFieldContainsCI kw rest = true := by
      simpa [objFieldContainsCI, Bool.or_eq_true] using h
    show testPat kw (',' :: '\n' :: (ind ++
      ('"' :: (escStr k.data ++ ('"' :: ':' :: ' ' :: renderVal w ind)) ++
      renderFMore rest ind))) = true
    rcases hsplit with h1 | h1
    · have t0 := strField_testPat_render kw hplain w ind h1
      have t1 := testPat_append_left kw [ '"', ':', ' ' ] _ t0
      have t2 := testPat_append_left kw (escStr k.data)
        ('"' :: ':' :: ' ' :: renderVal w ind) t1
      have t3 := testPat_append_right kw
        (escStr k.data ++ ('"' :: ':' :: ' ' :: renderVal w ind))
        (renderFMore rest ind) t2
      have t4 := testPat_append_left kw [ '"' ] _ t3
      have t5 := testPat_append_left kw ind _ t4
      exact testPat_append_left kw [ ',', '\n' ] _ t5
    · have t0 := fmore_testPat_render kw hplain rest ind h1
      have t1 := testPat_append_left kw
        ('"' :: (escStr k.data ++ ('"' :: ':' :: ' ' :: renderVal w ind))) _ t0
      have t2 := testPat_append_left kw ind _ t1
      exact testPat_append_left kw [ ',', '\n' ] _ t2
termination_by sizeOf fs

end

theorem strField_sanitize_flag (kw : String) (hm : kw ∈ EXPLOIT_KEYWORDS) (v : Json)
    (h : strFieldContainsCI kw.data v = true) :
    (sanitizeOutput (stringify v)).2 = true := by
  have hplain : kw.data.all plainPat = true := by
    have hall := exploit_keywords_plain
    simp only [List.all_eq_true] at hall
    exact List.all_eq_true.mpr (hall kw hm)
  have ht : testPat kw.data (renderVal v []) = true :=
    strField_testPat_render kw.data hplain v [] h
  exact sanitizeOutput_flag (stringify v) kw hm ht

theorem lookupJKey_insertKey (fs : List (String × Json)) (k : String) (v : Json) :
    lookupJKey (insertKey fs k v) k = some v := by
  induction fs with
  | nil => simp [insertKey, lookupJKey]
  | cons f rest ih =>
    rcases f with ⟨k0, v0⟩
    unfold insertKey
    by_cases hk : k0 = k
    · rw [if_pos hk]
      unfold lookupJKey
      rw [if_pos hk]
    · rw [if_neg hk]
      unfold lookupJKey
      rw [if_neg hk]
      exact ih

theorem redactAndNote_parsed (v w : Json)
    (hp : jsonParse (sanitizeOutput (stringify v)).1 = some w) :
    redactAndNote v = noteStep (sanitizeOutput (stringify v)).2 w := by
  simp only [redactAndNote]
  rw [hp]

theorem prependNote_shape (old : Option Json) :
    ∃ rest, prependNote old = Json.arr (Json.str DISCLOSURE :: rest) := by
  unfold prependNote
  rcases old with _ | w
  · exact ⟨[], rfl⟩
  · cases w with
    | arr xs => exact ⟨xs, rfl⟩
    | null => exact ⟨[], rfl⟩
    | bool b => exact ⟨[], rfl⟩
    | num n => exact ⟨[], rfl⟩
    | str s => exact ⟨[], rfl⟩
    | obj fs => exact ⟨[], rfl⟩

/-- Claim C1 amended: when a string field of the resolved value contains a
redaction keyword (in any case combination) and the redacted serialization
still parses as a JSON object, the filter records that redaction occurred
and returns that object with `safe_notes` bound to a sequence whose first
element is the disclosure note (the rest of any existing array preserved,
the sequence created otherwise).  The provisos are forced by the code: a
keyword match can overlap a `\r`-style escape and leave unparseable text
(the request then fails, `C1_counterexample`), an earlier keyword's
replacement may consume part of a later keyword's occurrence, and a
non-object re-parse cannot carry `safe_notes`. -/
theorem C1_amended (kw : String) (v : Json) (fs : List (String × Json))
    (hm : kw ∈ EXPLOIT_KEYWORDS)
    (hc : strFieldContainsCI kw.data v = true)
    (hp : jsonParse (sanitizeOutput (stringify v)).1 = some (Json.obj fs)) :
    ∃ rest,
      redactAndNote v = Except.ok (Json.obj (insertKey fs "safe_notes"
        (Json.arr (Json.str DISCLOSURE :: rest)))) ∧
      lookupJKey (insertKey fs "safe_notes" (Json.arr (Json.str DISCLOSURE :: rest)))
        "safe_notes" = some (Json.arr (Json.str DISCLOSURE :: rest)) := by
  have hflag : (sanitizeOutput (stringify v)).2 = true := strField_sanitize_flag kw hm v hc
  rcases prependNote_shape (lookupJKey fs "safe_notes") with ⟨rest, hrest⟩
  refine ⟨rest, ?_, lookupJKey_insertKey fs "safe_notes" _⟩
  rw [redactAndNote_parsed v (Json.obj fs) hp]
  unfold noteStep
  rw [if_pos hflag]
  show Except.ok (Json.obj (insertKey fs "safe_notes"
    (prependNote (lookupJKey fs "safe_notes")))) = _
  rw [hrest]

/-- Witness for C1 amended at `vMeta`: the resolved value mentions
`metasploit`, the redacted text re-parses, and the note is installed. -/
theorem C1_amended_witness :
    ∃ rest,
      redactAndNote vMeta = Except.ok (Json.obj (insertKey
        [ ("a", Json.str "use [redacted] to gain access") ] "safe_notes"
        (Json.arr (Json.str DISCLOSURE :: rest)))) ∧
      lookupJKey (insertKey [ ("a", Json.str "use [redacted] to gain access") ]
        "safe_notes" (Json.arr (Json.str DISCLOSURE :: rest))) "safe_notes" =
        some (Json.arr (Json.str DISCLOSURE :: rest)) :=
  C1_amended "metasploit" vMeta [ ("a", Json.str "use [redacted] to gain access") ]
    (by decide) (by decide) (by decide)

theorem skipWs_append_spaces (l : List Char) (h : ∀ c ∈ l, c = ' ') (r : List Char) :
    skipWs (l ++ r) = skipWs r := by
  induction l with
  | nil => rfl
  | cons c t ih =>
    have hc : c = ' ' := h c (List.mem_cons_self c t)
    subst hc
    show skipWs (t ++ r) = skipWs r
    exact ih (fun c hc => h c (List.mem_cons_of_mem _ hc))

theorem skipWs_not_ws (c : Char) (r : List Char) (h : isJWs c = false) :
    skipWs (c :: r) = c :: r := by
  show (if isJWs c then skipWs r else c :: r) = c :: r
  rw [h]
  rfl

theorem expectTail_self (lit rest : List Char) : expectTail lit (lit ++ rest) = some rest := by
  induction lit with
  | nil => rfl
  | cons c t ih =>
    show (if c = c then expectTail t (t ++ rest) else none) = some rest
    rw [if_pos rfl]
    exact ih

theorem hexVal_hexDig (n : Nat) (h : n < 16) : hexVal (hexDigChar n) = some n := by
  interval_cases n <;> decide

theorem digitChar_props (d : Nat) :
    isJWs (digitChar d) = false ∧ digitChar d ≠ ']' ∧ digitChar d ≠ 'n' ∧ digitChar d ≠ 't' ∧
    digitChar d ≠ 'f' ∧ digitChar d ≠ '"' ∧ digitChar d ≠ '[' ∧ digitChar d ≠ '{' ∧
    digitChar d ≠ '-' ∧ numStart (digitChar d) = true := by
  match d with
  | 0 | 1 | 2 | 3 | 4 | 5 | 6 | 7 | 8 => decide
  | n + 9 =>
    show isJWs '9' = false ∧ '9' ≠ ']' ∧ '9' ≠ 'n' ∧ '9' ≠ 't' ∧ '9' ≠ 'f' ∧ '9' ≠ '"' ∧
      '9' ≠ '[' ∧ '9' ≠ '{' ∧ '9' ≠ '-' ∧ numStart '9' = true
    decide

theorem isDigitC_digitChar (d : Nat) : isDigitC (digitChar d) = true := by
  match d with
  | 0 | 1 | 2 | 3 | 4 | 5 | 6 | 7 | 8 => rfl
  | n + 9 => rfl

theorem digitChar_toNat (d : Nat) (h : d < 10) : (digitChar d).toNat = 48 + d := by
  interval_cases d <;> rfl

theorem parseVal_arr_dispatch (f : Nat) (z : List Char) :
    parseVal (f + 1) ('[' :: z) =
      (match skipWs z with
       | ']' :: r2 => some (Json.arr [], r2)
       | r1 => (parseItems f r1).map (fun p => (Json.arr p.1, p.2))) := rfl

theorem parseVal_obj_dispatch (f : Nat) (z : List Char) :
    parseVal (f + 1) ('{' :: z) =
      (match skipWs z with
       | '}' :: r2 => some (Json.obj [], r2)
       | r1 => (parseMembers f r1).map (fun p => (Json.obj (objOf p.1), p.2))) := rfl

theorem natCharsF_congr (f : Nat) : ∀ g n, n < f → n < g → natCharsF f n = natCharsF g n := by
  induction f with
  | zero => intro g n h; omega
  | succ f ih =>
    intro g n hf hg
    rcases g with _ | g
    · omega
    · show (if n < 10 then _ else _) = (if n < 10 then _ else _)
      by_cases h : n < 10
      · rw [if_pos h, if_pos h]
      · rw [if_neg h, if_neg h]
        have hd : n / 10 < n := Nat.div_lt_self (by omega) (by omega)
        rw [ih g (n / 10) (by omega) (by omega)]

theorem natChars_eq (n : Nat) :
    natChars n = if n < 10 then [ digitChar n ]
                 else natChars (n / 10) ++ [ digitChar (n % 10) ] := by
  show natCharsF (n + 1) n = _
  by_cases h : n < 10
  · show (if n < 10 then _ else _) = _
    rw [if_pos h, if_pos h]
  · show (if n < 10 then _ else _) = _
    rw [if_neg h, if_neg h]
    rw [natCharsF_congr n (n / 10 + 1) (n / 10) (by omega) (by omega)]
    rfl

theorem natCharsF_head (f : Nat) : ∀ n, ∃ d t, natCharsF (f + 1) n = digitChar d :: t := by
  induction f with
  | zero =>
    intro n
    by_cases h : n < 10
    · exact ⟨n, [], by show (if n < 10 then _ else _) = _; rw [if_pos h]⟩
    · exact ⟨n % 10, [], by show (if n < 10 then _ else _) = _; rw [if_neg h]; rfl⟩
  | succ f ih =>
    intro n
    by_cases h : n < 10
    · exact ⟨n, [], by show (if n < 10 then _ else _) = _; rw [if_pos h]⟩
    · obtain ⟨d, t, hd⟩ := ih (n / 10)
      refine ⟨d, t ++ [ digitChar (n % 10) ], ?_⟩
      show (if n < 10 then _ else _) = _
      rw [if_neg h, hd]
      rfl

theorem natChars_head (n : Nat) : ∃ d t, natChars n = digitChar d :: t := natCharsF_head n n

theorem parseDigs_stop (rest : List Char) (acc : Nat) (h : noNumTail rest = true) :
    parseDigs rest acc = (acc, rest) := by
  cases rest with
  | nil => rfl
  | cons c r =>
    show (if isDigitC c then parseDigs r (acc * 10 + (c.toNat - 48)) else (acc, c :: r)) = _
    have hd : isDigitC c = false := by
      simp only [noNumTail, Bool.and_eq_true, Bool.not_eq_true'] at h
      exact h.1.1.1
    rw [hd]
    rfl

theorem parseDigs_cons_digit (c : Char) (r : List Char) (acc : Nat) (h : isDigitC c = true) :
    parseDigs (c :: r) acc = parseDigs r (acc * 10 + (c.toNat - 48)) := by
  show (if isDigitC c then parseDigs r (acc * 10 + (c.toNat - 48)) else (acc, c :: r)) = _
  rw [h]
  rfl

theorem parseDigs_natChars (n : Nat) : ∀ acc rest,
    parseDigs (natChars n ++ rest) acc =
      parseDigs rest (acc * 10 ^ (natChars n).length + n) := by
  induction n using Nat.strong_induction_on with
  | _ n ih =>
    intro acc rest
    by_cases h : n < 10
    · rw [natChars_eq n, if_pos h]
      rw [List.singleton_append, parseDigs_cons_digit _ _ _ (isDigitC_digitChar n),
        digitChar_toNat n h, Nat.add_sub_cancel_left]
      simp
    · rw [natChars_eq n, if_neg h]
      rw [List.append_assoc, ih (n / 10) (Nat.div_lt_self (by omega) (by omega)) acc _]
      rw [List.singleton_append, parseDigs_cons_digit _ _ _ (isDigitC_digitChar (n % 10)),
        digitChar_toNat (n % 10) (by omega), Nat.add_sub_cancel_left]
      congr 1
      simp only [List.length_append, List.length_cons, List.length_nil]
      calc (acc * 10 ^ (natChars (n / 10)).length + n / 10) * 10 + n % 10
          = acc * (10 ^ (natChars (n / 10)).length * 10) + (10 * (n / 10) + n % 10) := by ring
        _ = acc * 10 ^ ((natChars (n / 10)).length + (0 + 1)) + n := by
            rw [Nat.div_add_mod, pow_succ]

theorem digitChar_ne_zero (d : Nat) (h1 : 0 < d) (h2 : d < 10) : digitChar d ≠ '0' := by
  interval_cases d <;> decide

theorem natChars_pos_head (n : Nat) (h : 0 < n) :
    ∃ d t, natChars n = digitChar d :: t ∧ 0 < d ∧ d < 10 := by
  induction n using Nat.strong_induction_on with
  | _ n ih =>
    by_cases h10 : n < 10
    · exact ⟨n, [], by rw [natChars_eq n, if_pos h10], h, h10⟩
    · obtain ⟨d, t, hd, hd1, hd2⟩ :=
        ih (n / 10) (Nat.div_lt_self (by omega) (by omega)) (by omega)
      refine ⟨d, t ++ [ digitChar (n % 10) ], ?_, hd1, hd2⟩
      rw [natChars_eq n, if_neg h10, hd]
      rfl

theorem parseNatLit_natChars (n : Nat) (rest : List Char) (h : noNumTail rest = true) :
    parseNatLit (natChars n ++ rest) = some (n, rest) := by
  by_cases h0 : n = 0
  · subst h0
    show parseNatLit ('0' :: rest) = some (0, rest)
    cases rest with
    | nil => rfl
    | cons d r =>
      show (if isDigitC d then none else some (0, d :: r)) = some (0, d :: r)
      have hd : isDigitC d = false := by
        simp only [noNumTail, Bool.and_eq_true, Bool.not_eq_true'] at h
        exact h.1.1.1
      rw [hd]
      rfl
  · obtain ⟨d, t, hnat, hd1, hd2⟩ := natChars_pos_head n (by omega)
    have key : parseDigs (t ++ rest) d = (n, rest) := by
      have h1 := parseDigs_natChars n 0 rest
      rw [parseDigs_stop rest _ h, hnat, List.cons_append,
        parseDigs_cons_digit _ _ _ (isDigitC_digitChar d), digitChar_toNat d hd2,
        Nat.add_sub_cancel_left] at h1
      simpa using h1
    rw [hnat, List.cons_append]
    show (if isDigitC (digitChar d) then _ else none) = _
    rw [isDigitC_digitChar, if_pos rfl, if_neg (digitChar_ne_zero d hd1 hd2),
      digitChar_toNat d hd2, Nat.add_sub_cancel_left, key]

theorem intNumRest_ok (i : Int) (rest : List Char) (h : noNumTail rest = true) :
    intNumRest i rest = some (i, rest) := by
  cases rest with
  | nil => rfl
  | cons c r =>
    simp only [noNumTail, Bool.and_eq_true, Bool.not_eq_true'] at h
    show (if c = '.' || c = 'e' || c = 'E' then none else some (i, c :: r)) = _
    have : (decide (c = '.') || decide (c = 'e') || decide (c = 'E')) = false := by
      simp only [Bool.or_eq_false_iff, decide_eq_false_iff_not]
      exact ⟨⟨by simpa using h.1.1.2, by simpa using h.1.2⟩, by simpa using h.2⟩
    simp only [this, Bool.false_eq_true, if_false]

theorem parseIntLit_intChars (i : Int) (rest : List Char) (h : noNumTail rest = true) :
    parseIntLit (intChars i ++ rest) = some (i, rest) := by
  cases i with
  | ofNat n =>
    obtain ⟨d, t, hd⟩ := natChars_head n
    show parseIntLit (natChars n ++ rest) = some (Int.ofNat n, rest)
    rw [hd, List.cons_append]
    show (if digitChar d = '-' then _ else (parseNatLit (digitChar d :: (t ++ rest))).bind
      (fun p => intNumRest (p.1 : Int) p.2)) = _
    rw [if_neg (digitChar_props d).2.2.2.2.2.2.2.2.1, ← List.cons_append, ← hd,
      parseNatLit_natChars n rest h]
    show intNumRest (n : Int) rest = _
    rw [intNumRest_ok _ _ h]
    rfl
  | negSucc n =>
    show parseIntLit ('-' :: (natChars (n + 1) ++ rest)) = some (Int.negSucc n, rest)
    show (parseNatLit (natChars (n + 1) ++ rest)).bind
      (fun p => intNumRest (-(p.1 : Int)) p.2) = _
    rw [parseNatLit_natChars (n + 1) rest h]
    show intNumRest (-((n + 1 : Nat) : Int)) rest = _
    rw [intNumRest_ok _ _ h]
    have : -((n + 1 : Nat) : Int) = Int.negSucc n := by
      rw [Int.negSucc_eq]
      push_cast
      ring
    rw [this]

theorem parseStrBody_plain (c : Char) (r : List Char) (h1 : ¬ c = '"') (h2 : ¬ c = '\\')
    (h3 : ¬ c.toNat < 32) :
    parseStrBody (c :: r) = (parseStrBody r).map (fun p => (c :: p.1, p.2)) := by
  conv_lhs => unfold parseStrBody
  rw [if_neg h1, if_neg h2, if_neg h3]

theorem parseStrBody_u (a b : Char) (r : List Char) (va vb : Nat)
    (ha : hexVal a = some va) (hb : hexVal b = some vb) :
    parseStrBody ('\\' :: 'u' :: '0' :: '0' :: a :: b :: r) =
      (parseStrBody r).map
        (fun (p : List Char × List Char) =>
          (Char.ofNat (((0 * 16 + 0) * 16 + va) * 16 + vb) :: p.1, p.2)) := by
  show (match hexVal '0', hexVal '0', hexVal a, hexVal b with
        | some x, some y, some z, some w =>
          (parseStrBody r).map
            (fun (p : List Char × List Char) =>
              (Char.ofNat (((x * 16 + y) * 16 + z) * 16 + w) :: p.1, p.2))
        | _, _, _, _ => none) = _
  rw [ha, hb]
  rfl

theorem parseStrBody_escStr (s : List Char) : ∀ rest,
    parseStrBody (escStr s ++ ('"' :: rest)) = some (s, rest) := by
  induction s with
  | nil =>
    intro rest
    show parseStrBody ('"' :: rest) = some ([], rest)
    conv_lhs => unfold parseStrBody
    rfl
  | cons c t ih =>
    intro rest
    show parseStrBody ((escChar c ++ escStr t) ++ ('"' :: rest)) = some (c :: t, rest)
    rw [List.append_assoc]
    by_cases h1 : c = '"'
    · subst h1
      show parseStrBody ('\\' :: '"' :: (escStr t ++ ('"' :: rest))) = _
      conv_lhs => unfold parseStrBody
      show (parseStrBody (escStr t ++ ('"' :: rest))).map
        (fun (p : List Char × List Char) => ('"' :: p.1, p.2)) = _
      rw [ih rest]
      rfl
    · by_cases h2 : c = '\\'
      · subst h2
        show parseStrBody ('\\' :: '\\' :: (escStr t ++ ('"' :: rest))) = _
        conv_lhs => unfold parseStrBody
        show (parseStrBody (escStr t ++ ('"' :: rest))).map
          (fun (p : List Char × List Char) => ('\\' :: p.1, p.2)) = _
        rw [ih rest]
        rfl
      · by_cases h3 : c = Char.ofNat 8
        · subst h3
          show parseStrBody ('\\' :: 'b' :: (escStr t ++ ('"' :: rest))) = _
          conv_lhs => unfold parseStrBody
          show (parseStrBody (escStr t ++ ('"' :: rest))).map
            (fun (p : List Char × List Char) => (Char.ofNat 8 :: p.1, p.2)) = _
          rw [ih rest]
          rfl
        · by_cases h4 : c = Char.ofNat 12
          · subst h4
            show parseStrBody ('\\' :: 'f' :: (escStr t ++ ('"' :: rest))) = _
            conv_lhs => unfold parseStrBody
            show (parseStrBody (escStr t ++ ('"' :: rest))).map
              (fun (p : List Char × List Char) => (Char.ofNat 12 :: p.1, p.2)) = _
            rw [ih rest]
            rfl
          · by_cases h5 : c = '\n'
            · subst h5
              show parseStrBody ('\\' :: 'n' :: (escStr t ++ ('"' :: rest))) = _
              conv_lhs => unfold parseStrBody
              show (parseStrBody (escStr t ++ ('"' :: rest))).map
                (fun (p : List Char × List Char) => ('\n' :: p.1, p.2)) = _
              rw [ih rest]
              rfl
            · by_cases h6 : c = '\r'
              · subst h6
                show parseStrBody ('\\' :: 'r' :: (escStr t ++ ('"' :: rest))) = _
                conv_lhs => unfold parseStrBody
                show (parseStrBody (escStr t ++ ('"' :: rest))).map
                  (fun (p : List Char × List Char) => ('\r' :: p.1, p.2)) = _
                rw [ih rest]
                rfl
              · by_cases h7 : c = '\t'
                · subst h7
                  show parseStrBody ('\\' :: 't' :: (escStr t ++ ('"' :: rest))) = _
                  conv_lhs => unfold parseStrBody
                  show (parseStrBody (escStr t ++ ('"' :: rest))).map
                    (fun (p : List Char × List Char) => ('\t' :: p.1, p.2)) = _
                  rw [ih rest]
                  rfl
                · by_cases h8 : c.toNat < 32
                  · have hesc : escChar c =
                        [ '\\', 'u', '0', '0', hexDigChar (c.toNat / 16),
                          hexDigChar (c.toNat % 16) ] := by
                      unfold escChar
                      rw [if_neg h1, if_neg h2, if_neg h3, if_neg h4, if_neg h5, if_neg h6,
                        if_neg h7, if_pos h8]
                    rw [hesc]
                    show parseStrBody ('\\' :: 'u' :: '0' :: '0' :: hexDigChar (c.toNat / 16) ::
                      hexDigChar (c.toNat % 16) :: (escStr t ++ ('"' :: rest))) = _
                    rw [parseStrBody_u _ _ _ (c.toNat / 16) (c.toNat % 16)
                      (hexVal_hexDig _ (by omega)) (hexVal_hexDig _ (by omega))]
                    rw [ih rest]
                    have harith : ((0 * 16 + 0) * 16 + c.toNat / 16) * 16 + c.toNat % 16 =
                        c.toNat := by omega
                    rw [harith, Char.ofNat_toNat]
                    rfl
                  · have hesc : escChar c = [ c ] := by
                      unfold escChar
                      rw [if_neg h1, if_neg h2, if_neg h3, if_neg h4, if_neg h5, if_neg h6,
                        if_neg h7, if_neg h8]
                    rw [hesc, List.singleton_append,
                      parseStrBody_plain c _ h1 h2 h8, ih rest]
                    rfl

theorem renderVal_head (v : Json) (ind : List Char) :
    ∃ c t, renderVal v ind = c :: t ∧ isJWs c = false ∧ c ≠ ']' := by
  cases v with
  | null => exact ⟨'n', _, rfl, by decide, by decide⟩
  | bool b => cases b with
    | false => exact ⟨'f', _, rfl, by decide, by decide⟩
    | true => exact ⟨'t', _, rfl, by decide, by decide⟩
  | num i =>
    cases i with
    | ofNat n =>
      obtain ⟨d, t, hd⟩ := natChars_head n
      exact ⟨digitChar d, t, hd, (digitChar_props d).1, (digitChar_props d).2.1⟩
    | negSucc n => exact ⟨'-', _, rfl, by decide, by decide⟩
  | str s => exact ⟨'"', _, rfl, by decide, by decide⟩
  | arr xs => cases xs with
    | nil => exact ⟨'[', _, rfl, by decide, by decide⟩
    | cons x r => exact ⟨'[', _, rfl, by decide, by decide⟩
  | obj fs => cases fs with
    | nil => exact ⟨'{', _, rfl, by decide, by decide⟩
    | cons p r =>
      obtain ⟨k, w⟩ := p
      exact ⟨'{', _, rfl, by decide, by decide⟩

theorem fuelV_pos (v : Json) : 1 ≤ fuelV v := by
  cases v with
  | arr xs => cases xs with
    | nil => exact Nat.le_refl 1
    | cons x r => show 1 ≤ 1 + fuelL (x :: r); omega
  | obj fs => cases fs with
    | nil => exact Nat.le_refl 1
    | cons p r =>
      obtain ⟨k, w⟩ := p
      show 1 ≤ 1 + fuelF ((k, w) :: r)
      omega
  | null => exact Nat.le_refl 1
  | bool b => exact Nat.le_refl 1
  | num i => exact Nat.le_refl 1
  | str s => exact Nat.le_refl 1

theorem insertKey_fresh (acc : List (String × Json)) (k : String) (v : Json)
    (h : ∀ p ∈ acc, p.1 ≠ k) : insertKey acc k v = acc ++ [ (k, v) ] := by
  induction acc with
  | nil => rfl
  | cons q r ih =>
    obtain ⟨k0, v0⟩ := q
    show (if k0 = k then (k0, v) :: r else (k0, v0) :: insertKey r k v) = _
    rw [if_neg (h (k0, v0) (List.mem_cons_self _ _))]
    rw [ih (fun p hp => h p (List.mem_cons_of_mem _ hp))]
    rfl

theorem objOf_go (fs : List (String × Json)) : ∀ acc,
    keysUniq fs = true → (∀ p ∈ fs, ∀ q ∈ acc, q.1 ≠ p.1) →
    List.foldl (fun a p => insertKey a p.1 p.2) acc fs = acc ++ fs := by
  induction fs with
  | nil =>
    intro acc _ _
    simp
  | cons p r ih =>
    obtain ⟨k, v⟩ := p
    intro acc hu hd
    have hu' : keysUniq r = true := by
      simp only [keysUniq, Bool.and_eq_true] at hu
      exact hu.2
    have hkr : ∀ q ∈ r, q.1 ≠ k := by
      intro q hq
      simp only [keysUniq, Bool.and_eq_true, List.all_eq_true] at hu
      have := hu.1 q hq
      simpa using this
    show List.foldl (fun a p => insertKey a p.1 p.2) (insertKey acc k v) r = _
    rw [insertKey_fresh acc k v (fun q hq => hd (k, v) (List.mem_cons_self _ _) q hq)]
    rw [ih (acc ++ [ (k, v) ]) hu' ?_]
    · simp
    · intro p hp q hq
      rcases List.mem_append.mp hq with hq1 | hq2
      · exact hd p (List.mem_cons_of_mem _ hp) q hq1
      · have : q = (k, v) := by simpa using hq2
        subst this
        exact fun hcon => (hkr p hp) hcon.symm

theorem objOf_uniq (fs : List (String × Json)) (h : keysUniq fs = true) : objOf fs = fs := by
  have := objOf_go fs [] h (by intro p _ q hq; simp at hq)
  simpa [objOf] using this

theorem skipWs_ws_cons (c : Char) (r : List Char) (h : isJWs c = true) :
    skipWs (c :: r) = skipWs r := by
  show (if isJWs c then skipWs r else c :: r) = skipWs r
  rw [h]
  rfl

theorem string_mk_data (s : String) : String.mk s.data = s := by
  cases s
  rfl

theorem parseItems_step (f : Nat) (cs : List Char) :
    parseItems (f + 1) cs =
      (match parseVal f cs with
       | none => none
       | some (v, r) =>
         match skipWs r with
         | ',' :: r2 => (parseItems f (skipWs r2)).map (fun p => (v :: p.1, p.2))
         | ']' :: r2 => some ([ v ], r2)
         | _ => none) := rfl

theorem parseItems_cont (f : Nat) (cs r : List Char) (v : Json)
    (h : parseVal f cs = some (v, r)) :
    parseItems (f + 1) cs =
      (match skipWs r with
       | ',' :: r2 => (parseItems f (skipWs r2)).map (fun p => (v :: p.1, p.2))
       | ']' :: r2 => some ([ v ], r2)
       | _ => none) := by
  rw [parseItems_step, h]

theorem parseMembers_step (f : Nat) (r : List Char) :
    parseMembers (f + 1) ('"' :: r) =
      (match parseStrBody r with
       | none => none
       | some (k, r1) =>
         match skipWs r1 with
         | ':' :: r2 =>
           match parseVal f (skipWs r2) with
           | none => none
           | some (v, r3) =>
             match skipWs r3 with
             | ',' :: r4 =>
               (parseMembers f (skipWs r4)).map (fun p => ((String.mk k, v) :: p.1, p.2))
             | '}' :: r4 => some ([ (String.mk k, v) ], r4)
             | _ => none
         | _ => none) := rfl

theorem parseMembers_cont (f : Nat) (r r1 r2 r3 : List Char) (kc : List Char) (v : Json)
    (h1 : parseStrBody r = some (kc, r1))
    (h2 : skipWs r1 = ':' :: r2)
    (h3 : parseVal f (skipWs r2) = some (v, r3)) :
    parseMembers (f + 1) ('"' :: r) =
      (match skipWs r3 with
       | ',' :: r4 =>
         (parseMembers f (skipWs r4)).map
              (fun (p : List (String × Json) × List Char) => ((String.mk kc, v) :: p.1, p.2))
       | '}' :: r4 => some ([ (String.mk kc, v) ], r4)
       | _ => none) := by
  rw [parseMembers_step, h1]
  show (match skipWs r1 with
        | ':' :: r2 =>
          match parseVal f (skipWs r2) with
          | none => none
          | some (v, r3) =>
            match skipWs r3 with
            | ',' :: r4 =>
              (parseMembers f (skipWs r4)).map
              (fun (p : List (String × Json) × List Char) => ((String.mk kc, v) :: p.1, p.2))
            | '}' :: r4 => some ([ (String.mk kc, v) ], r4)
            | _ => none
        | _ => none) = _
  rw [h2]
  show (match parseVal f (skipWs r2) with
        | none => none
        | some (v, r3) =>
          match skipWs r3 with
          | ',' :: r4 =>
            (parseMembers f (skipWs r4)).map
              (fun (p : List (String × Json) × List Char) => ((String.mk kc, v) :: p.1, p.2))
          | '}' :: r4 => some ([ (String.mk kc, v) ], r4)
          | _ => none) = _
  rw [h3]

theorem parseVal_lit_n (f : Nat) (r : List Char) :
    parseVal (f + 1) ('n' :: r) =
      (expectTail [ 'u', 'l', 'l' ] r).map (fun r2 => (Json.null, r2)) := rfl

theorem parseVal_lit_t (f : Nat) (r : List Char) :
    parseVal (f + 1) ('t' :: r) =
      (expectTail [ 'r', 'u', 'e' ] r).map (fun r2 => (Json.bool true, r2)) := rfl

theorem parseVal_lit_f (f : Nat) (r : List Char) :
    parseVal (f + 1) ('f' :: r) =
      (expectTail [ 'a', 'l', 's', 'e' ] r).map (fun r2 => (Json.bool false, r2)) := rfl

theorem parseVal_quote (f : Nat) (r : List Char) :
    parseVal (f + 1) ('"' :: r) =
      (parseStrBody r).map (fun p => (Json.str (String.mk p.1), p.2)) := rfl

theorem parseVal_neg (f : Nat) (r : List Char) :
    parseVal (f + 1) ('-' :: r) =
      (parseIntLit ('-' :: r)).map (fun p => (Json.num p.1, p.2)) := rfl

theorem parseVal_num_dispatch (f : Nat) (c : Char) (r : List Char)
    (h1 : ¬ c = 'n') (h2 : ¬ c = 't') (h3 : ¬ c = 'f') (h4 : ¬ c = '"')
    (h5 : ¬ c = '[') (h6 : ¬ c = '{') (h7 : numStart c = true) :
    parseVal (f + 1) (c :: r) =
      (parseIntLit (c :: r)).map (fun p => (Json.num p.1, p.2)) := by
  show (if c = 'n' then _ else _) = _
  rw [if_neg h1, if_neg h2, if_neg h3, if_neg h4, if_neg h5, if_neg h6, if_pos h7]

theorem skipWs_render_head (v : Json) (ind2 Z : List Char) :
    skipWs (renderVal v ind2 ++ Z) = renderVal v ind2 ++ Z := by
  obtain ⟨c0, t0, hv, hws, _⟩ := renderVal_head v ind2
  rw [hv]
  simp only [List.cons_append]
  exact skipWs_not_ws _ _ hws

theorem skipWs_nl_sp_render (pre : List Char) (hpre : ∀ c ∈ pre, c = ' ') (v : Json)
    (ind2 Z : List Char) :
    skipWs ('\n' :: (pre ++ (renderVal v ind2 ++ Z))) = renderVal v ind2 ++ Z := by
  rw [skipWs_ws_cons _ _ (by decide), skipWs_append_spaces pre hpre, skipWs_render_head]

theorem skipWs_nl_sp2_render (pre : List Char) (hpre : ∀ c ∈ pre, c = ' ') (v : Json)
    (ind2 Z : List Char) :
    skipWs ('\n' :: (pre ++ (sp2 ++ (renderVal v ind2 ++ Z)))) = renderVal v ind2 ++ Z := by
  rw [skipWs_ws_cons _ _ (by decide), skipWs_append_spaces pre hpre,
    skipWs_append_spaces sp2 (by decide), skipWs_render_head]

theorem skipWs_nl_sp2_quote (pre : List Char) (hpre : ∀ c ∈ pre, c = ' ') (Z : List Char) :
    skipWs ('\n' :: (pre ++ (sp2 ++ ('"' :: Z)))) = '"' :: Z := by
  rw [skipWs_ws_cons _ _ (by decide), skipWs_append_spaces pre hpre,
    skipWs_append_spaces sp2 (by decide), skipWs_not_ws _ _ (by decide)]

theorem skipWs_nl_sp_close (c : Char) (hc : isJWs c = false) (pre : List Char)
    (hpre : ∀ c2 ∈ pre, c2 = ' ') (rest : List Char) :
    skipWs ('\n' :: (pre ++ (c :: rest))) = c :: rest := by
  rw [skipWs_ws_cons _ _ (by decide), skipWs_append_spaces pre hpre, skipWs_not_ws _ _ hc]

theorem skipWs_sp_render (v : Json) (ind2 Z : List Char) :
    skipWs (' ' :: (renderVal v ind2 ++ Z)) = renderVal v ind2 ++ Z := by
  rw [skipWs_ws_cons _ _ (by decide), skipWs_render_head]

theorem itemsTail_comma (f : Nat) (v : Json) (r2 : List Char) :
    (match skipWs (',' :: r2) with
     | ',' :: r4 => (parseItems f (skipWs r4)).map (fun p => (v :: p.1, p.2))
     | ']' :: r4 => some ([ v ], r4)
     | _ => none) = (parseItems f (skipWs r2)).map (fun p => (v :: p.1, p.2)) := by
  rw [skipWs_not_ws _ _ (by decide)]
  rfl

theorem itemsTail_close (f : Nat) (v : Json) (r3 rest : List Char)
    (h : skipWs r3 = ']' :: rest) :
    (match skipWs r3 with
     | ',' :: r4 => (parseItems f (skipWs r4)).map (fun p => (v :: p.1, p.2))
     | ']' :: r4 => some ([ v ], r4)
     | _ => none) = some ([ v ], rest) := by
  rw [h]
  rfl

theorem membersTail_comma (f : Nat) (kc : List Char) (v : Json) (r2 : List Char) :
    (match skipWs (',' :: r2) with
     | ',' :: r4 =>
       (parseMembers f (skipWs r4)).map (fun p => ((String.mk kc, v) :: p.1, p.2))
     | '}' :: r4 => some ([ (String.mk kc, v) ], r4)
     | _ => none) =
      (parseMembers f (skipWs r2)).map (fun p => ((String.mk kc, v) :: p.1, p.2)) := by
  rw [skipWs_not_ws _ _ (by decide)]
  rfl

theorem membersTail_close (f : Nat) (kc : List Char) (v : Json) (r3 rest : List Char)
    (h : skipWs r3 = '}' :: rest) :
    (match skipWs r3 with
     | ',' :: r4 =>
       (parseMembers f (skipWs r4)).map (fun p => ((String.mk kc, v) :: p.1, p.2))
     | '}' :: r4 => some ([ (String.mk kc, v) ], r4)
     | _ => none) = some ([ (String.mk kc, v) ], rest) := by
  rw [h]
  rfl
mutual

theorem parseVal_render (v : Json) : ∀ (f : Nat) (ind rest : List Char),
    fuelV v ≤ f → (∀ c ∈ ind, c = ' ') → wfB v = true → noNumTail rest = true →
    parseVal f (renderVal v ind ++ rest) = some (v, rest) :=
  match v with
  | .null => by
    intro f ind rest hf hind hwf hrest
    rcases f with _ | f
    · have e1 : fuelV Json.null = 1 := rfl
      omega
    show parseVal (f + 1) ('n' :: 'u' :: 'l' :: 'l' :: rest) = some (Json.null, rest)
    rw [parseVal_lit_n,
      show expectTail [ 'u', 'l', 'l' ] ('u' :: 'l' :: 'l' :: rest) = some rest from
        expectTail_self [ 'u', 'l', 'l' ] rest]
    rfl
  | .bool true => by
    intro f ind rest hf hind hwf hrest
    rcases f with _ | f
    · have e1 : fuelV (Json.bool true) = 1 := rfl
      omega
    show parseVal (f + 1) ('t' :: 'r' :: 'u' :: 'e' :: rest) = some (Json.bool true, rest)
    rw [parseVal_lit_t,
      show expectTail [ 'r', 'u', 'e' ] ('r' :: 'u' :: 'e' :: rest) = some rest from
        expectTail_self [ 'r', 'u', 'e' ] rest]
    rfl
  | .bool false => by
    intro f ind rest hf hind hwf hrest
    rcases f with _ | f
    · have e1 : fuelV (Json.bool false) = 1 := rfl
      omega
    show parseVal (f + 1) ('f' :: 'a' :: 'l' :: 's' :: 'e' :: rest) =
      some (Json.bool false, rest)
    rw [parseVal_lit_f,
      show expectTail [ 'a', 'l', 's', 'e' ] ('a' :: 'l' :: 's' :: 'e' :: rest) =
          some rest from
        expectTail_self [ 'a', 'l', 's', 'e' ] rest]
    rfl
  | .num (Int.ofNat n) => by
    intro f ind rest hf hind hwf hrest
    rcases f with _ | f
    · have e1 : fuelV (Json.num (Int.ofNat n)) = 1 := rfl
      omega
    obtain ⟨d, t, hd⟩ := natChars_head n
    show parseVal (f + 1) (natChars n ++ rest) = some (Json.num (Int.ofNat n), rest)
    rw [hd, List.cons_append,
      parseVal_num_dispatch f _ _ (digitChar_props d).2.2.1 (digitChar_props d).2.2.2.1
        (digitChar_props d).2.2.2.2.1 (digitChar_props d).2.2.2.2.2.1
        (digitChar_props d).2.2.2.2.2.2.1 (digitChar_props d).2.2.2.2.2.2.2.1
        (digitChar_props d).2.2.2.2.2.2.2.2.2]
    rw [← List.cons_append, ← hd]
    show (parseIntLit (intChars (Int.ofNat n) ++ rest)).map
      (fun (p : Int × List Char) => (Json.num p.1, p.2)) = _
    rw [parseIntLit_intChars _ _ hrest]
    rfl
  | .num (Int.negSucc n) => by
    intro f ind rest hf hind hwf hrest
    rcases f with _ | f
    · have e1 : fuelV (Json.num (Int.negSucc n)) = 1 := rfl
      omega
    show parseVal (f + 1) ('-' :: (natChars (n + 1) ++ rest)) =
      some (Json.num (Int.negSucc n), rest)
    rw [parseVal_neg]
    show (parseIntLit (intChars (Int.negSucc n) ++ rest)).map
      (fun (p : Int × List Char) => (Json.num p.1, p.2)) = _
    rw [parseIntLit_intChars _ _ hrest]
    rfl
  | .str s => by
    intro f ind rest hf hind hwf hrest
    rcases f with _ | f
    · have e1 : fuelV (Json.str s) = 1 := rfl
      omega
    rw [show renderVal (Json.str s) ind = '"' :: (escStr s.data ++ [ '"' ]) from rfl]
    rw [List.cons_append, List.append_assoc, List.singleton_append, parseVal_quote,
      parseStrBody_escStr s.data rest]
    show some (Json.str (String.mk s.data), rest) = some (Json.str s, rest)
    rw [string_mk_data]
  | .arr [] => by
    intro f ind rest hf hind hwf hrest
    rcases f with _ | f
    · have e1 : fuelV (Json.arr []) = 1 := rfl
      omega
    show parseVal (f + 1) ('[' :: ']' :: rest) = some (Json.arr [], rest)
    rw [parseVal_arr_dispatch, skipWs_not_ws _ _ (by decide)]
    rfl
  | .arr (x :: xs) => by
    intro f ind rest hf hind hwf hrest
    rcases f with _ | f
    · have e1 : fuelV (Json.arr (x :: xs)) = 1 + fuelL (x :: xs) := rfl
      omega
    have hwf2 : wfB x = true ∧ wfArr xs = true := by
      simp only [wfB, wfArr, Bool.and_eq_true] at hwf
      exact hwf
    have hfl : fuelL (x :: xs) ≤ f := by
      have e1 : fuelV (Json.arr (x :: xs)) = 1 + fuelL (x :: xs) := rfl
      omega
    have hind2 : ∀ c ∈ ind ++ sp2, c = ' ' := by
      intro c hc
      rcases List.mem_append.mp hc with h | h
      · exact hind c h
      · simpa [sp2] using h
    simp only [renderVal, List.cons_append, List.append_assoc, List.nil_append,
      List.singleton_append]
    rw [parseVal_arr_dispatch, skipWs_nl_sp2_render ind hind x (ind ++ sp2) _]
    split
    · rename_i r2 heq
      obtain ⟨c0, t0, hx, hc0ws, hc0br⟩ := renderVal_head x (ind ++ sp2)
      rw [hx, List.cons_append] at heq
      injection heq with h1 h2
      exact absurd h1 hc0br
    · rw [parseItems_render x xs f ind (ind ++ sp2) rest hfl hind hind2 hwf2.1 hwf2.2]
      rfl
  | .obj [] => by
    intro f ind rest hf hind hwf hrest
    rcases f with _ | f
    · have e1 : fuelV (Json.obj []) = 1 := rfl
      omega
    show parseVal (f + 1) ('{' :: '}' :: rest) = some (Json.obj [], rest)
    rw [parseVal_obj_dispatch, skipWs_not_ws _ _ (by decide)]
    rfl
  | .obj ((k, w) :: fs) => by
    intro f ind rest hf hind hwf hrest
    rcases f with _ | f
    · have e1 : fuelV (Json.obj ((k, w) :: fs)) = 1 + fuelF ((k, w) :: fs) := rfl
      omega
    have hwf2 : keysUniq ((k, w) :: fs) = true ∧ wfB w = true ∧ wfObj fs = true := by
      simp only [wfB, wfObj, Bool.and_eq_true] at hwf
      exact ⟨hwf.1, hwf.2⟩
    have hff : fuelF ((k, w) :: fs) ≤ f := by
      have e1 : fuelV (Json.obj ((k, w) :: fs)) = 1 + fuelF ((k, w) :: fs) := rfl
      omega
    have hind2 : ∀ c ∈ ind ++ sp2, c = ' ' := by
      intro c hc
      rcases List.mem_append.mp hc with h | h
      · exact hind c h
      · simpa [sp2] using h
    simp only [renderVal, List.cons_append, List.append_assoc, List.nil_append,
      List.singleton_append]
    rw [parseVal_obj_dispatch, skipWs_nl_sp2_quote ind hind _]
    split
    · rename_i r2 heq
      injection heq with h1 h2
      exact absurd h1 (by decide)
    · rw [parseMembers_render k w fs f ind (ind ++ sp2) rest hff hind hind2
        hwf2.2.1 hwf2.2.2]
      show some (Json.obj (objOf ((k, w) :: fs)), rest) = _
      rw [objOf_uniq _ hwf2.1]
termination_by sizeOf v

theorem parseItems_render (x : Json) (xs : List Json) : ∀ (f : Nat) (ind0 ind rest : List Char),
    fuelL (x :: xs) ≤ f → (∀ c ∈ ind0, c = ' ') → (∀ c ∈ ind, c = ' ') →
    wfB x = true → wfArr xs = true →
    parseItems f (renderVal x ind ++ (renderMore xs ind ++ ('\n' :: (ind0 ++ (']' :: rest))))) =
      some (x :: xs, rest) :=
  match xs with
  | [] => by
    intro f ind0 ind rest hf hind0 hind hwx hwxs
    rcases f with _ | f
    · have e1 : fuelL (x :: ([] : List Json)) = 1 + fuelV x + fuelL [] := rfl
      omega
    have hfx : fuelV x ≤ f := by
      have e1 : fuelL (x :: ([] : List Json)) = 1 + fuelV x + fuelL [] := rfl
      omega
    simp only [renderMore, List.nil_append]
    rw [parseItems_cont f _ ('\n' :: (ind0 ++ (']' :: rest))) x
      (parseVal_render x f ind ('\n' :: (ind0 ++ (']' :: rest))) hfx hind hwx (by rfl))]
    rw [itemsTail_close f x _ rest (skipWs_nl_sp_close ']' (by decide) ind0 hind0 rest)]
  | y :: ys => by
    intro f ind0 ind rest hf hind0 hind hwx hwxs
    rcases f with _ | f
    · have e1 : fuelL (x :: (y :: ys)) = 1 + fuelV x + fuelL (y :: ys) := rfl
      omega
    have hfx : fuelV x ≤ f := by
      have e1 : fuelL (x :: (y :: ys)) = 1 + fuelV x + fuelL (y :: ys) := rfl
      have e2 : fuelL (y :: ys) = 1 + fuelV y + fuelL ys := rfl
      omega
    have hwf2 : wfB y = true ∧ wfArr ys = true := by
      simp only [wfArr, Bool.and_eq_true] at hwxs
      exact hwxs
    have hfl2 : fuelL (y :: ys) ≤ f := by
      have e1 : fuelL (x :: (y :: ys)) = 1 + fuelV x + fuelL (y :: ys) := rfl
      omega
    simp only [renderMore, List.cons_append, List.append_assoc]
    rw [parseItems_cont f _ (',' :: '\n' :: (ind ++ (renderVal y ind ++ (renderMore ys ind ++
        ('\n' :: (ind0 ++ (']' :: rest))))))) x
      (parseVal_render x f ind _ hfx hind hwx (by rfl))]
    rw [itemsTail_comma, skipWs_nl_sp_render ind hind y ind _,
      parseItems_render y ys f ind0 ind rest hfl2 hind0 hind hwf2.1 hwf2.2]
    rfl
termination_by 1 + sizeOf x + sizeOf xs

theorem parseMembers_render (k : String) (w : Json) (fs : List (String × Json)) :
    ∀ (f : Nat) (ind0 ind rest : List Char),
    fuelF ((k, w) :: fs) ≤ f → (∀ c ∈ ind0, c = ' ') → (∀ c ∈ ind, c = ' ') →
    wfB w = true → wfObj fs = true →
    parseMembers f ('"' :: (escStr k.data ++ ('"' :: ':' :: ' ' :: (renderVal w ind ++
      (renderFMore fs ind ++ ('\n' :: (ind0 ++ ('}' :: rest)))))))) =
      some ((k, w) :: fs, rest) :=
  match fs with
  | [] => by
    intro f ind0 ind rest hf hind0 hind hww hwfs
    rcases f with _ | f
    · have e1 : fuelF ((k, w) :: ([] : List (String × Json))) =
          1 + fuelV w + fuelF [] := rfl
      omega
    have hfw : fuelV w ≤ f := by
      have e1 : fuelF ((k, w) :: ([] : List (String × Json))) =
          1 + fuelV w + fuelF [] := rfl
      omega
    simp only [renderFMore, List.nil_append]
    have hcolon : isJWs ':' = false := by decide
    have h3 : parseVal f (skipWs (' ' :: (renderVal w ind ++ ('\n' :: (ind0 ++ ('}' :: rest)))))) =
        some (w, ('\n' :: (ind0 ++ ('}' :: rest)))) := by
      rw [skipWs_sp_render w ind _]
      exact parseVal_render w f ind _ hfw hind hww (by rfl)
    rw [parseMembers_cont f (escStr k.data ++ ('"' :: ':' :: ' ' :: (renderVal w ind ++ ('\n' :: (ind0 ++ ('}' :: rest))))))
      (':' :: ' ' :: (renderVal w ind ++ ('\n' :: (ind0 ++ ('}' :: rest)))))
      (' ' :: (renderVal w ind ++ ('\n' :: (ind0 ++ ('}' :: rest)))))
      ('\n' :: (ind0 ++ ('}' :: rest))) k.data w
      (parseStrBody_escStr k.data (':' :: ' ' :: (renderVal w ind ++ ('\n' :: (ind0 ++ ('}' :: rest))))))
      (skipWs_not_ws ':' (' ' :: (renderVal w ind ++ ('\n' :: (ind0 ++ ('}' :: rest))))) hcolon)
      h3]
    have hbrace : isJWs '}' = false := by decide
    rw [membersTail_close f k.data w _ rest
      (skipWs_nl_sp_close '}' hbrace ind0 hind0 rest)]
  | (k2, w2) :: fs2 => by
    intro f ind0 ind rest hf hind0 hind hww hwfs
    rcases f with _ | f
    · have e1 : fuelF ((k, w) :: ((k2, w2) :: fs2)) =
          1 + fuelV w + fuelF ((k2, w2) :: fs2) := rfl
      omega
    have hfw : fuelV w ≤ f := by
      have e1 : fuelF ((k, w) :: ((k2, w2) :: fs2)) =
          1 + fuelV w + fuelF ((k2, w2) :: fs2) := rfl
      have e2 : fuelF ((k2, w2) :: fs2) = 1 + fuelV w2 + fuelF fs2 := rfl
      omega
    have hwf2 : wfB w2 = true ∧ wfObj fs2 = true := by
      simp only [wfObj, Bool.and_eq_true] at hwfs
      exact hwfs
    have hff2 : fuelF ((k2, w2) :: fs2) ≤ f := by
      have e1 : fuelF ((k, w) :: ((k2, w2) :: fs2)) =
          1 + fuelV w + fuelF ((k2, w2) :: fs2) := rfl
      omega
    simp only [renderFMore, List.cons_append, List.append_assoc]
    have hcolon : isJWs ':' = false := by decide
    have h3 : parseVal f (skipWs (' ' :: (renderVal w ind ++ (',' :: '\n' :: (ind ++ ('"' :: (escStr k2.data ++ ('"' :: ':' :: ' ' :: (renderVal w2 ind ++ (renderFMore fs2 ind ++ ('\n' :: (ind0 ++ ('}' :: rest))))))))))))) =
        some (w, (',' :: '\n' :: (ind ++ ('"' :: (escStr k2.data ++ ('"' :: ':' :: ' ' :: (renderVal w2 ind ++ (renderFMore fs2 ind ++ ('\n' :: (ind0 ++ ('}' :: rest))))))))))) := by
      rw [skipWs_sp_render w ind _]
      exact parseVal_render w f ind _ hfw hind hww (by rfl)
    rw [parseMembers_cont f (escStr k.data ++ ('"' :: ':' :: ' ' :: (renderVal w ind ++ (',' :: '\n' :: (ind ++ ('"' :: (escStr k2.data ++ ('"' :: ':' :: ' ' :: (renderVal w2 ind ++ (renderFMore fs2 ind ++ ('\n' :: (ind0 ++ ('}' :: rest)))))))))))))
      (':' :: ' ' :: (renderVal w ind ++ (',' :: '\n' :: (ind ++ ('"' :: (escStr k2.data ++ ('"' :: ':' :: ' ' :: (renderVal w2 ind ++ (renderFMore fs2 ind ++ ('\n' :: (ind0 ++ ('}' :: rest))))))))))))
      (' ' :: (renderVal w ind ++ (',' :: '\n' :: (ind ++ ('"' :: (escStr k2.data ++ ('"' :: ':' :: ' ' :: (renderVal w2 ind ++ (renderFMore fs2 ind ++ ('\n' :: (ind0 ++ ('}' :: rest))))))))))))
      (',' :: '\n' :: (ind ++ ('"' :: (escStr k2.data ++ ('"' :: ':' :: ' ' :: (renderVal w2 ind ++ (renderFMore fs2 ind ++ ('\n' :: (ind0 ++ ('}' :: rest)))))))))) k.data w
      (parseStrBody_escStr k.data (':' :: ' ' :: (renderVal w ind ++ (',' :: '\n' :: (ind ++ ('"' :: (escStr k2.data ++ ('"' :: ':' :: ' ' :: (renderVal w2 ind ++ (renderFMore fs2 ind ++ ('\n' :: (ind0 ++ ('}' :: rest)))))))))))))
      (skipWs_not_ws ':' (' ' :: (renderVal w ind ++ (',' :: '\n' :: (ind ++ ('"' :: (escStr k2.data ++ ('"' :: ':' :: ' ' :: (renderVal w2 ind ++ (renderFMore fs2 ind ++ ('\n' :: (ind0 ++ ('}' :: rest)))))))))))) hcolon)
      h3]
    have hquote : isJWs '"' = false := by decide
    rw [membersTail_comma, skipWs_nl_sp_close '"' hquote ind hind _,
      parseMembers_render k2 w2 fs2 f ind0 ind rest hff2 hind0 hind hwf2.1 hwf2.2]
    rfl
termination_by 1 + sizeOf w + sizeOf fs

end

mutual

theorem fuelV_le_render (v : Json) : ∀ ind : List Char,
    fuelV v ≤ (renderVal v ind).length + 1 :=
  match v with
  | .null => by
    intro ind
    have e1 : fuelV Json.null = 1 := rfl
    omega
  | .bool b => by
    intro ind
    have e1 : fuelV (Json.bool b) = 1 := rfl
    omega
  | .num i => by
    intro ind
    have e1 : fuelV (Json.num i) = 1 := rfl
    omega
  | .str s => by
    intro ind
    have e1 : fuelV (Json.str s) = 1 := rfl
    omega
  | .arr [] => by
    intro ind
    have e1 : fuelV (Json.arr []) = 1 := rfl
    omega
  | .arr (x :: xs) => by
    intro ind
    have h1 := fuelV_le_render x (ind ++ sp2)
    have h2 := fuelL_le_more xs (ind ++ sp2)
    have e1 : fuelV (Json.arr (x :: xs)) = 1 + fuelL (x :: xs) := rfl
    have e2 : fuelL (x :: xs) = 1 + fuelV x + fuelL xs := rfl
    rw [e1, e2]
    simp only [renderVal, List.length_cons, List.length_append, List.length_nil]
    omega
  | .obj [] => by
    intro ind
    have e1 : fuelV (Json.obj []) = 1 := rfl
    omega
  | .obj ((k, w) :: fs) => by
    intro ind
    have h1 := fuelV_le_render w (ind ++ sp2)
    have h2 := fuelF_le_fmore fs (ind ++ sp2)
    have e1 : fuelV (Json.obj ((k, w) :: fs)) = 1 + fuelF ((k, w) :: fs) := rfl
    have e2 : fuelF ((k, w) :: fs) = 1 + fuelV w + fuelF fs := rfl
    rw [e1, e2]
    simp only [renderVal, List.length_cons, List.length_append, List.length_nil]
    omega
termination_by sizeOf v

theorem fuelL_le_more (xs : List Json) : ∀ ind : List Char,
    fuelL xs ≤ (renderMore xs ind).length + 1 :=
  match xs with
  | [] => by
    intro ind
    have e1 : fuelL ([] : List Json) = 1 := rfl
    omega
  | y :: ys => by
    intro ind
    have h1 := fuelV_le_render y ind
    have h2 := fuelL_le_more ys ind
    have e1 : fuelL (y :: ys) = 1 + fuelV y + fuelL ys := rfl
    rw [e1]
    simp only [renderMore, List.length_cons, List.length_append]
    omega
termination_by sizeOf xs

theorem fuelF_le_fmore (fs : List (String × Json)) : ∀ ind : List Char,
    fuelF fs ≤ (renderFMore fs ind).length + 1 :=
  match fs with
  | [] => by
    intro ind
    have e1 : fuelF ([] : List (String × Json)) = 1 := rfl
    omega
  | (k2, w2) :: fs2 => by
    intro ind
    have h1 := fuelV_le_render w2 ind
    have h2 := fuelF_le_fmore fs2 ind
    have e1 : fuelF ((k2, w2) :: fs2) = 1 + fuelV w2 + fuelF fs2 := rfl
    rw [e1]
    simp only [renderFMore, List.length_cons, List.length_append]
    omega
termination_by sizeOf fs

end

/-- Serializing any value with unique object keys and re-parsing yields the
value back: the roundtrip of `JSON.stringify(v, null, 2)` through
`JSON.parse`. -/
theorem jsonParse_stringify (v : Json) (hwf : wfB v = true) :
    jsonParse (stringify v) = some v := by
  have hsk : skipWs (renderVal v []) = renderVal v [] := by
    obtain ⟨c0, t0, hv, hws, _⟩ := renderVal_head v []
    rw [hv, skipWs_not_ws _ _ hws]
  have hp := parseVal_render v ((renderVal v []).length + 1) [] []
    (fuelV_le_render v []) (by intro c hc; simp at hc) hwf (by rfl)
  rw [List.append_nil] at hp
  show (match parseVal ((skipWs (renderVal v [])).length + 1) (skipWs (renderVal v [])) with
        | some (w, rest) => if skipWs rest = [] then some w else none
        | none => none) = some v
  rw [hsk, hp]
  rfl

/-- Counterexample to claim C3 as stated: `vDot`'s serialized text contains
no redaction keyword as a case-insensitive literal substring, yet the
Redaction Filter does not return the value unchanged — the `.` in the
`cmd.exe` pattern is a regex wildcard under `new RegExp(keyword, "gi")`, so
`cmd-exe` is redacted and a disclosure note is installed. -/
theorem C3_counterexample :
    noKeywordCISubstring (stringify vDot) = true ∧ wfB vDot = true ∧
      redactAndNote vDot ≠ Except.ok vDot := by
  exact ⟨by decide, by decide, by decide⟩

/-- Claim C3 amended: for every resolved JSON value (well-formed in the
sense that every object level has distinct keys, as any value produced by
`JSON.parse` is) whose serialized text is matched by no redaction-list
pattern under the code's `gi`-regex semantics — the `.` of `cmd.exe` acting
as a wildcard — the Redaction Filter returns a value structurally identical
to its input, `safe_notes` included: nothing is replaced, the serialized
text re-parses to the same value by the stringify/parse roundtrip, and no
note is installed. -/
theorem C3_amended (v : Json) (h1 : noKeywordMatch (stringify v) = true)
    (h2 : wfB v = true) : redactAndNote v = Except.ok v := by
  have hall : ∀ kw ∈ EXPLOIT_KEYWORDS, testPat kw.data (stringify v).data = false := by
    intro kw hm
    have := (List.all_eq_true.mp h1) kw hm
    simpa using this
  have hs : sanitizeOutput (stringify v) = (stringify v, false) :=
    sanitizeOutput_noKw _ hall
  have hp : jsonParse (sanitizeOutput (stringify v)).1 = some v := by
    rw [hs]
    exact jsonParse_stringify v h2
  rw [redactAndNote_parsed v v hp, hs]
  rfl

theorem C3_amended_witness :
    noKeywordMatch (stringify vPlain) = true ∧ wfB vPlain = true ∧
      redactAndNote vPlain = Except.ok vPlain :=
  ⟨by decide, by decide, C3_amended vPlain (by decide) (by decide)⟩
